import Mathlib

/-!
# Verification of the OB-Xd "Move Anything" plugin bridge (obxd_plugin.cpp)

A shallow embedding of the V2 instance-based plugin surface of
`src/src/dsp/obxd_plugin.cpp` and `src/src/dsp/param_helper.h`:

* the parameter shadow table `g_shadow_params` and its get/set helpers,
* the FXB preset-bank parser (`v2_load_bank`, `find_attr`),
* the preset application protocol (`v2_apply_preset`),
* the narrow-surface bank dispatch (`v2_apply_param`) and the
  ParamsEnum-indexed dispatch (`v2_apply_param_direct`),
* the string-keyed control protocol (`v2_set_param` / `v2_get_param`,
  including the JSON `state` snapshot and restore),
* the MIDI decoder (`v2_on_midi`) and the render pipeline
  (`v2_render_block`).

Modelling conventions:

* C `float` values are modelled as rationals (`ℚ`); the claims under
  study are about value routing (copy / clamp / compare / format), not
  about IEEE-754 rounding, so idealized arithmetic is faithful to the
  control flow being verified.
* The opaque `SynthEngine` is modelled at its interface boundary as a
  trace of calls (`EngineCall`); each per-parameter setter
  (`processCutoff`, `processVolume`, ...) is identified by the
  ParamsEnum slot it sets, written `EngineCall.setSlot slot value`.
* C strings are modelled as `List Char`; `strstr`/`strchr` are modelled
  by explicit first-index searches.
* `atof`/`atoi` are modelled by executable decimal parsers
  (`parse_float` / `parse_int`) covering the plain decimal forms that
  this plugin reads and writes; `printf` `%d`, `%.3f`, `%.4f` are
  modelled by `fmt_int`, `fmt_fixed 3`, `fmt_fixed 4`.
-/

namespace Obxd

/-! ## Scalar helpers -/

/-- Clamp a rational into `[lo, hi]`, the way the C code clamps with two
`if` statements (`if (v < lo) v = lo; if (v > hi) v = hi;`). -/
def clampQ (lo hi v : ℚ) : ℚ :=
  let v := if v < lo then lo else v
  if v > hi then hi else v

/-- Clamp an integer into `[lo, hi]` (two `if` statements, as in C). -/
def clampZ (lo hi v : ℤ) : ℤ :=
  let v := if v < lo then lo else v
  if v > hi then hi else v

/-- Truncation toward zero, the effect of a C cast from a floating-point
value to an integer type (`(int)f`, `(int32_t)f`): `Int.tdiv` is
T-division, so e.g. `truncQ (-3/2) = -1` just as `(int)(-1.5f) = -1`. -/
def truncQ (q : ℚ) : ℤ := q.num.tdiv (q.den : ℤ)

/-! ## Decimal parsing: model of `atof` / `atoi` on decimal inputs -/

def isDigitChar (c : Char) : Bool := '0' ≤ c ∧ c ≤ '9'

def digitVal (c : Char) : ℕ := c.toNat - '0'.toNat

/-- Value of a digit string, most significant first. -/
def digitsToNat (ds : List Char) : ℕ :=
  ds.foldl (fun acc c => 10 * acc + digitVal c) 0

/-- The fraction digits of a numeral tail: the digits after a leading
decimal point, if any. -/
def fracDigits (rest : List Char) : List Char :=
  if rest.head? = some '.' then rest.tail.takeWhile isDigitChar else []

/-- The unsigned numeral value at the head of `s`: integer digits, then
an optional point and fraction digits. -/
def parse_unsigned (s : List Char) : ℚ :=
  (digitsToNat (s.takeWhile isDigitChar) : ℚ) +
    (digitsToNat (fracDigits (s.drop (s.takeWhile isDigitChar).length)) : ℚ) /
      (10 ^ (fracDigits (s.drop (s.takeWhile isDigitChar).length)).length : ℕ)

/-- Model of `atof` on a character sequence: skip leading spaces, then an
optional sign, then decimal digits, then an optional `.` and fraction
digits.  Parsing stops at the first character that does not extend the
numeral; a string with no leading numeral yields `0`, as `atof` does.
(Exponent and hexadecimal forms of `atof` are never produced by this
plugin and are not modelled.) -/
def parse_float (s : List Char) : ℚ :=
  if (s.dropWhile (fun c => c = ' ')).head? = some '-' then
    -parse_unsigned (s.dropWhile (fun c => c = ' ')).tail
  else if (s.dropWhile (fun c => c = ' ')).head? = some '+' then
    parse_unsigned (s.dropWhile (fun c => c = ' ')).tail
  else
    parse_unsigned (s.dropWhile (fun c => c = ' '))

/-- Model of `atoi`: skip leading spaces, optional sign, decimal digits;
no digits yields `0`. -/
def parse_int (s : List Char) : ℤ :=
  let s := s.dropWhile (fun c => c = ' ')
  let (neg, s) :=
    match s with
    | '-' :: t => (true, t)
    | '+' :: t => (false, t)
    | _ => (false, s)
  let n : ℤ := (digitsToNat (s.takeWhile isDigitChar) : ℤ)
  if neg then -n else n

/-- String versions. -/
def parse_float_s (s : String) : ℚ := parse_float s.data

def parse_int_s (s : String) : ℤ := parse_int s.data

/-! ## Decimal formatting: model of `printf` `%d` and `%.kf` -/

/-- The character of a decimal digit. -/
def digitChar (d : ℕ) : Char := Char.ofNat ('0'.toNat + d)

/-- Decimal digits of a natural number, most significant first
(structural recursion on a fuel bound so the kernel can evaluate it;
`natDigits_eq` recovers the natural recursion). -/
def natDigitsAux : ℕ → ℕ → List Char
  | 0, _ => []
  | fuel + 1, n =>
    if n < 10 then [digitChar n]
    else natDigitsAux fuel (n / 10) ++ [digitChar (n % 10)]

/-- Decimal digits of a natural number, most significant first. -/
def natDigits (n : ℕ) : List Char := natDigitsAux (n + 1) n

/-- `%d` of an integer. -/
def fmt_int (i : ℤ) : List Char :=
  (if i < 0 then ['-'] else []) ++ natDigits i.natAbs

/-- Round to the nearest integer, halves away from zero (the rounding a
`printf` fixed-point conversion applies to the values in play here). -/
def roundHalf (q : ℚ) : ℤ :=
  if q < 0 then -⌊-q + 1/2⌋ else ⌊q + 1/2⌋

/-- Left-pad a digit string with zeros to width `w`. -/
def padZeros (w : ℕ) (ds : List Char) : List Char :=
  List.replicate (w - ds.length) '0' ++ ds

/-- `%.kf`: fixed-point rendering with exactly `k` fraction digits. -/
def fmt_fixed (k : ℕ) (q : ℚ) : List Char :=
  (if roundHalf (q * (10 ^ k : ℕ)) < 0 then ['-'] else []) ++
    natDigits ((roundHalf (q * (10 ^ k : ℕ))).natAbs / 10 ^ k) ++ ['.'] ++
    padZeros k (natDigits ((roundHalf (q * (10 ^ k : ℕ))).natAbs % 10 ^ k))

/-- The rational value a `%.kf` rendering denotes. -/
def roundFixed (k : ℕ) (q : ℚ) : ℚ := (roundHalf (q * (10 ^ k : ℕ)) : ℚ) / (10 ^ k : ℕ)

/-! ## ParamsEnum slot indices

Modelled from the spec: `Engine/ParamsEnum.h` is part of this repository
but is not under `src/` (only `obxd_plugin.cpp`, which includes it, is).
The spec describes the slots as "a flat parameter vector" whose "index
space is shared between the Preset format and the ParameterDescriptor
table", and anchors the historical FXB slot layout by the example
"assuming indices 44/45 map to those keys" for `cutoff`/`resonance`
(spec section 8).  The constants below reproduce that historical OB-Xd
FXB slot layout (cutoff = 44, resonance = 45, `PARAM_COUNT` = 80). -/

def UNDEFINED : ℕ := 0
def MIDILEARN : ℕ := 1
def VOLUME : ℕ := 2
def VOICE_COUNT : ℕ := 3
def TUNE : ℕ := 4
def OCTAVE : ℕ := 5
def BENDRANGE : ℕ := 6
def BENDOSC2 : ℕ := 7
def LEGATOMODE : ℕ := 8
def BENDLFORATE : ℕ := 9
def VFLTENV : ℕ := 10
def VAMPENV : ℕ := 11
def ASPLAYEDALLOCATION : ℕ := 12
def PORTAMENTO : ℕ := 13
def UNISON : ℕ := 14
def UDET : ℕ := 15
def OSC2_DET : ℕ := 16
def LFOFREQ : ℕ := 17
def LFOSINWAVE : ℕ := 18
def LFOSQUAREWAVE : ℕ := 19
def LFOSHWAVE : ℕ := 20
def LFO1AMT : ℕ := 21
def LFO2AMT : ℕ := 22
def LFOOSC1 : ℕ := 23
def LFOOSC2 : ℕ := 24
def LFOFILTER : ℕ := 25
def LFOPW1 : ℕ := 26
def LFOPW2 : ℕ := 27
def OSC2HS : ℕ := 28
def XMOD : ℕ := 29
def OSC1P : ℕ := 30
def OSC2P : ℕ := 31
def OSCQuantize : ℕ := 32
def OSC1Saw : ℕ := 33
def OSC1Pul : ℕ := 34
def OSC2Saw : ℕ := 35
def OSC2Pul : ℕ := 36
def PW : ℕ := 37
def BRIGHTNESS : ℕ := 38
def ENVPITCH : ℕ := 39
def OSC1MIX : ℕ := 40
def OSC2MIX : ℕ := 41
def NOISEMIX : ℕ := 42
def FLT_KF : ℕ := 43
def CUTOFF : ℕ := 44
def RESONANCE : ℕ := 45
def MULTIMODE : ℕ := 46
def FILTER_WARM : ℕ := 47
def BANDPASS : ℕ := 48
def FOURPOLE : ℕ := 49
def ENVELOPE_AMT : ℕ := 50
def LATK : ℕ := 51
def LDEC : ℕ := 52
def LSUS : ℕ := 53
def LREL : ℕ := 54
def FATK : ℕ := 55
def FDEC : ℕ := 56
def FSUS : ℕ := 57
def FREL : ℕ := 58
def ENVDER : ℕ := 59
def FILTERDER : ℕ := 60
def PORTADER : ℕ := 61
def UNLEARN : ℕ := 70
def ECONOMY_MODE : ℕ := 71
def LFO_SYNC : ℕ := 72
def PW_ENV : ℕ := 73
def PW_ENV_BOTH : ℕ := 74
def ENV_PITCH_BOTH : ℕ := 75
def FENV_INVERT : ℕ := 76
def PW_OSC2_OFS : ℕ := 77
def LEVEL_DIF : ℕ := 78
def SELF_OSC_PUSH : ℕ := 79

/-- Number of engine-addressable parameter slots. -/
def PARAM_COUNT : ℕ := 80

/-- `MAX_PRESETS` from obxd_plugin.cpp. -/
def MAX_PRESETS : ℕ := 128

/-- `MAX_PARAMS` from obxd_plugin.cpp (FXB `Val_<i>` probe bound). -/
def MAX_PARAMS : ℕ := 100

/-! ## Parameter shadow table (`param_helper.h`, `g_shadow_params`) -/

/-- `param_type_t`. -/
inductive ParamType where
  | FLOAT
  | INT
deriving DecidableEq, Repr

/-- `param_def_t`: {key, display name, type, engine slot index, min, max}. -/
structure ParamDef where
  key : String
  name : String
  type : ParamType
  index : ℕ
  min_val : ℚ
  max_val : ℚ
deriving DecidableEq, Repr

/-- The `g_shadow_params` table of obxd_plugin.cpp, entry for entry in
declaration order. -/
def g_shadow_params : List ParamDef := [
  ⟨"volume",        "Volume",        .FLOAT, VOLUME,        0, 1⟩,
  ⟨"tune",          "Tune",          .FLOAT, TUNE,          0, 1⟩,
  ⟨"portamento",    "Portamento",    .FLOAT, PORTAMENTO,    0, 1⟩,
  ⟨"unison_det",    "Uni Detune",    .FLOAT, UDET,          0, 1⟩,
  ⟨"octave",        "Octave",        .INT,   OCTAVE,        0, 1⟩,
  ⟨"voice_count",   "Voices",        .INT,   VOICE_COUNT,   0, 1⟩,
  ⟨"legato",        "Legato",        .INT,   LEGATOMODE,    0, 1⟩,
  ⟨"unison",        "Unison",        .INT,   UNISON,        0, 1⟩,
  ⟨"osc1_pitch",    "Osc1 Pitch",    .FLOAT, OSC1P,         0, 1⟩,
  ⟨"osc1_mix",      "Osc1 Mix",      .FLOAT, OSC1MIX,       0, 1⟩,
  ⟨"osc1_saw",      "Osc1 Saw",      .INT,   OSC1Saw,       0, 1⟩,
  ⟨"osc1_pulse",    "Osc1 Pulse",    .INT,   OSC1Pul,       0, 1⟩,
  ⟨"osc2_pitch",    "Osc2 Pitch",    .FLOAT, OSC2P,         0, 1⟩,
  ⟨"osc2_mix",      "Osc2 Mix",      .FLOAT, OSC2MIX,       0, 1⟩,
  ⟨"osc2_detune",   "Osc2 Detune",   .FLOAT, OSC2_DET,      0, 1⟩,
  ⟨"osc2_saw",      "Osc2 Saw",      .INT,   OSC2Saw,       0, 1⟩,
  ⟨"osc2_pulse",    "Osc2 Pulse",    .INT,   OSC2Pul,       0, 1⟩,
  ⟨"osc2_sync",     "Osc2 Sync",     .INT,   OSC2HS,        0, 1⟩,
  ⟨"pw",            "Pulse Width",   .FLOAT, PW,            0, 1⟩,
  ⟨"pw_env",        "PW Env Amt",    .FLOAT, PW_ENV,        0, 1⟩,
  ⟨"pw_ofs",        "PW Osc2 Ofs",   .FLOAT, PW_OSC2_OFS,   0, 1⟩,
  ⟨"noise",         "Noise",         .FLOAT, NOISEMIX,      0, 1⟩,
  ⟨"xmod",          "X-Mod",         .FLOAT, XMOD,          0, 1⟩,
  ⟨"brightness",    "Brightness",    .FLOAT, BRIGHTNESS,    0, 1⟩,
  ⟨"pw_env_both",   "PW Env Both",   .INT,   PW_ENV_BOTH,   0, 1⟩,
  ⟨"cutoff",        "Cutoff",        .FLOAT, CUTOFF,        0, 1⟩,
  ⟨"resonance",     "Resonance",     .FLOAT, RESONANCE,     0, 1⟩,
  ⟨"filter_env",    "Filter Env",    .FLOAT, ENVELOPE_AMT,  0, 1⟩,
  ⟨"key_follow",    "Key Follow",    .FLOAT, FLT_KF,        0, 1⟩,
  ⟨"multimode",     "Multimode",     .FLOAT, MULTIMODE,     0, 1⟩,
  ⟨"bandpass",      "Bandpass",      .INT,   BANDPASS,      0, 1⟩,
  ⟨"fourpole",      "4-Pole",        .INT,   FOURPOLE,      0, 1⟩,
  ⟨"self_osc",      "Self Osc",      .INT,   SELF_OSC_PUSH, 0, 1⟩,
  ⟨"fenv_inv",      "F.Env Invert",  .INT,   FENV_INVERT,   0, 1⟩,
  ⟨"f_attack",      "F Attack",      .FLOAT, FATK,          0, 1⟩,
  ⟨"f_decay",       "F Decay",       .FLOAT, FDEC,          0, 1⟩,
  ⟨"f_sustain",     "F Sustain",     .FLOAT, FSUS,          0, 1⟩,
  ⟨"f_release",     "F Release",     .FLOAT, FREL,          0, 1⟩,
  ⟨"vel_filter",    "Vel>Filter",    .FLOAT, VFLTENV,       0, 1⟩,
  ⟨"attack",        "Attack",        .FLOAT, LATK,          0, 1⟩,
  ⟨"decay",         "Decay",         .FLOAT, LDEC,          0, 1⟩,
  ⟨"sustain",       "Sustain",       .FLOAT, LSUS,          0, 1⟩,
  ⟨"release",       "Release",       .FLOAT, LREL,          0, 1⟩,
  ⟨"vel_amp",       "Vel>Amp",       .FLOAT, VAMPENV,       0, 1⟩,
  ⟨"lfo_rate",      "LFO Rate",      .FLOAT, LFOFREQ,       0, 1⟩,
  ⟨"lfo_amt1",      "LFO Amt 1",     .FLOAT, LFO1AMT,       0, 1⟩,
  ⟨"lfo_amt2",      "LFO Amt 2",     .FLOAT, LFO2AMT,       0, 1⟩,
  ⟨"lfo_sin",       "LFO Sine",      .INT,   LFOSINWAVE,    0, 1⟩,
  ⟨"lfo_square",    "LFO Square",    .INT,   LFOSQUAREWAVE, 0, 1⟩,
  ⟨"lfo_sh",        "LFO S&H",       .INT,   LFOSHWAVE,     0, 1⟩,
  ⟨"lfo_sync",      "LFO Sync",      .INT,   LFO_SYNC,      0, 1⟩,
  ⟨"lfo_osc1",      "LFO>Osc1",      .INT,   LFOOSC1,       0, 1⟩,
  ⟨"lfo_osc2",      "LFO>Osc2",      .INT,   LFOOSC2,       0, 1⟩,
  ⟨"lfo_filter",    "LFO>Filter",    .INT,   LFOFILTER,     0, 1⟩,
  ⟨"lfo_pw1",       "LFO>PW1",       .INT,   LFOPW1,        0, 1⟩,
  ⟨"lfo_pw2",       "LFO>PW2",       .INT,   LFOPW2,        0, 1⟩,
  ⟨"env_pitch",     "Env>Pitch",     .FLOAT, ENVPITCH,      0, 1⟩,
  ⟨"vibrato",       "Vibrato",       .FLOAT, BENDLFORATE,   0, 1⟩,
  ⟨"env_pitch_both","Env Pitch Both",.INT,   ENV_PITCH_BOTH,0, 1⟩,
  ⟨"bend_range",    "Bend Range",    .INT,   BENDRANGE,     0, 1⟩]

/-- `g_param_names`: the three fixed 8-knob banks of display keys. -/
def g_param_names : List (List String) := [
  ["cutoff", "resonance", "filter_env", "key_track",
   "attack", "decay", "sustain", "release"],
  ["osc1_wave", "osc2_wave", "osc_mix", "noise",
   "pw", "osc2_det", "osc1_pitch", "osc2_pitch"],
  ["lfo_rate", "lfo_wave", "lfo_cutoff", "lfo_pitch",
   "lfo_pw", "vibrato", "unison", "portamento"]]

/-! ## Engine interface boundary

The opaque `SynthEngine` is specified only at its call boundary; an
execution is recorded as the ordered list of calls the bridge makes.
Every per-parameter setter is identified by the ParamsEnum slot it sets
(`processCutoff value` is recorded as `setSlot CUTOFF value`, and so on
for each setter named in `v2_apply_param_direct`). -/

inductive EngineCall where
  | setSlot (slot : ℕ) (value : ℚ)
  | noteOn (note : ℕ) (velocity : ℚ)
  | noteOff (note : ℕ)
  | sustainOn
  | sustainOff
  | modWheel (value : ℚ)
  | pitchWheel (value : ℚ)
deriving DecidableEq, Repr

/-- Engine parameter state observable at the interface: the last value
pushed through each slot, if any value was ever pushed. -/
abbrev EngineMap : Type := ℕ → Option ℚ

/-- Effect of one call on the engine parameter state. -/
def applyCall (m : EngineMap) : EngineCall → EngineMap
  | .setSlot s v => fun j => if j = s then some v else m j
  | _ => m

/-- Effect of a call trace on the engine parameter state. -/
def applyCalls (m : EngineMap) (cs : List EngineCall) : EngineMap :=
  cs.foldl applyCall m

/-! ## Instance state (`obxd_instance_t`, `Preset`) -/

/-- `struct Preset`: bounded name, `MAX_PARAMS` value slots, and the
number of leading slots populated from the source record. -/
structure Preset where
  name : String
  params : ℕ → ℚ
  param_count : ℕ

/-- `obxd_instance_t` (the fields the claims observe; the engine handle
is replaced by the call-trace model, `module_dir`/`tempo_bpm` are
inert). -/
structure Instance where
  current_preset : ℤ
  preset_count : ℕ
  param_bank : ℤ
  octave_transpose : ℤ
  preset_name : String
  params : ℕ → ℚ
  presets : List Preset
  output_gain : ℚ

/-! ## C string search primitives (`strstr`, `strchr`) -/

/-- Index of the first occurrence of `pat` in `s` at or after position
`i` (accumulator form).  `firstIdx s pat = some j` models
`strstr(s, pat) == s + j`; `none` models a NULL result. -/
def firstIdxAux (pat : List Char) : List Char → ℕ → Option ℕ
  | s, i =>
    if pat.isPrefixOf s then some i
    else
      match s with
      | [] => none
      | _ :: t => firstIdxAux pat t (i + 1)

/-- First index where `pat` occurs in `s`. -/
def firstIdx (s pat : List Char) : Option ℕ := firstIdxAux pat s 0

/-- Index of the first occurrence of character `c` (`strchr`). -/
def charIdx (s : List Char) (c : Char) : Option ℕ := s.indexOf? c

/-! ## FXB bank parser (`find_attr`, `v2_load_bank`) -/

/-- `find_attr(xml, attr_name, buf, 256)`: search for `attr_name="`,
then copy up to the closing quote, truncating to the 256-byte buffer
(`len >= buf_len` clamps to `buf_len - 1 = 255`).  Returns the
extracted value, or `none` when the pattern or the closing quote is
missing (NULL in C). -/
def find_attr (xml : List Char) (attr_name : String) : Option (List Char) :=
  let search := attr_name.data ++ ['=', '"']
  match firstIdx xml search with
  | none => none
  | some pos =>
    let after := xml.drop (pos + search.length)
    match charIdx after '"' with
    | none => none
    | some len => some (after.take (min len 255))

/-- The sequential attribute probe loop shape of `v2_load_bank`: for
`i` from 0 to `n - 1`, if the probe `g i` finds a value, store its
parsed value at slot `i` and set the count to `i + 1`. -/
def probeFold (g : ℕ → Option (List Char)) (n : ℕ) : (ℕ → ℚ) × ℕ :=
  (List.range n).foldl
    (fun acc i =>
      match g i with
      | some v => (fun j => if j = i then parse_float v else acc.1 j, i + 1)
      | none => acc)
    (fun _ => 0, 0)

/-- The `Val_<i>` probe loop of `v2_load_bank` (`i` from 0 to
`MAX_PARAMS - 1`, probing with `find_attr`). -/
def probeVals (xml : List Char) : (ℕ → ℚ) × ℕ :=
  probeFold (fun i => find_attr xml ("Val_" ++ toString i)) MAX_PARAMS

/-- Parse one `<program ...>` record from the character suffix starting
at its `<program ` match (the attribute searches run from there to the
end of the document, exactly as the C `strstr`/`find_attr` calls do).
`idx` is the running preset count, used for the fallback name. -/
def parseProgram (xml : List Char) (idx : ℕ) : Preset :=
  let name :=
    match find_attr xml "programName" with
    | some v => String.mk (v.take 31)
    | none => "Preset " ++ toString idx
  ⟨name, (probeVals xml).1, (probeVals xml).2⟩

/-- The `while ((program = strstr(program, "<program ")))` loop: find
the next element start, parse a record from there, and continue the
search one character past the match, until no match remains or
`MAX_PRESETS` records are parsed.  `fuel` is the remaining capacity. -/
def parseProgramsAux (s : List Char) (idx : ℕ) : ℕ → List Preset
  | 0 => []
  | fuel + 1 =>
    match firstIdx s "<program ".data with
    | none => []
    | some j =>
      let here := s.drop j
      parseProgram here idx ::
        parseProgramsAux (s.drop (j + 1)) (idx + 1) fuel

/-- All program records of an embedded XML payload (at most 128). -/
def parsePrograms (xml : List Char) : List Preset :=
  parseProgramsAux xml 0 MAX_PRESETS

/-- The `<?xml` signature scan of `v2_load_bank`: the first offset `i`
with `i < size - 5` (signed comparison; for `size ≤ 5` the loop body
never runs) whose five bytes match `<?xml`. -/
def findXmlSig (data : List Char) : Option ℕ :=
  (List.range (data.length - 5)).find?
    (fun i => "<?xml".data.isPrefixOf (data.drop i))

/-- `v2_load_bank`: `file = none` models an unopenable file.  On
success the parsed records replace the preset table and the count (and
the return value) is the number parsed; on failure `-1` is returned and
the instance is untouched. -/
def v2_load_bank (inst : Instance) (file : Option (List Char)) : Instance × ℤ :=
  match file with
  | none => (inst, -1)
  | some data =>
    match findXmlSig data with
    | none => (inst, -1)
    | some i =>
      let ps := parsePrograms (data.drop i)
      ({ inst with preset_count := ps.length, presets := ps }, ps.length)

/-! ## Preset application (`v2_apply_preset`) -/

/-- The ParamsEnum slots `v2_apply_preset` pushes to the engine, in the
exact source order of its guarded setter calls
(`if (p->param_count > SLOT) synth->process...(p->params[SLOT]);`). -/
def applyPresetSlots : List ℕ := [
  VOLUME, TUNE, OCTAVE, VOICE_COUNT, LEGATOMODE, PORTAMENTO, UNISON, UDET,
  OSC2_DET,
  LFOFREQ, LFOSINWAVE, LFOSQUAREWAVE, LFOSHWAVE, LFO1AMT, LFO2AMT,
  LFOOSC1, LFOOSC2, LFOFILTER, LFOPW1, LFOPW2, LFO_SYNC,
  OSC2HS, XMOD, OSC1P, OSC2P, OSCQuantize, OSC1Saw, OSC1Pul, OSC2Saw,
  OSC2Pul, PW, PW_ENV, PW_ENV_BOTH, PW_OSC2_OFS, BRIGHTNESS, ENVPITCH,
  ENV_PITCH_BOTH, OSC1MIX, OSC2MIX, NOISEMIX,
  FLT_KF, CUTOFF, RESONANCE, MULTIMODE, BANDPASS, FOURPOLE,
  SELF_OSC_PUSH, FENV_INVERT, ENVELOPE_AMT,
  LATK, LDEC, LSUS, LREL, VAMPENV,
  FATK, FDEC, FSUS, FREL, VFLTENV,
  ENVDER, FILTERDER, PORTADER,
  BENDRANGE, BENDLFORATE]

/-- `v2_apply_preset`: no-op when the index is out of the loaded range;
otherwise set the preset name, copy `params[i]` for every
`i < param_count` below `PARAM_COUNT`, and push each slot of
`applyPresetSlots` to the engine when `param_count` exceeds it. -/
def v2_apply_preset (inst : Instance) (preset_idx : ℤ) : Instance × List EngineCall :=
  if preset_idx < 0 ∨ preset_idx ≥ (inst.preset_count : ℤ) then (inst, [])
  else
    match inst.presets.get? preset_idx.toNat with
    | none => (inst, [])
    | some p =>
      let inst' := { inst with
        preset_name := String.mk (p.name.data.take 63),
        params := fun i =>
          if i < p.param_count ∧ i < PARAM_COUNT then p.params i else inst.params i }
      let calls := applyPresetSlots.filterMap
        (fun e => if p.param_count > e then some (EngineCall.setSlot e (p.params e)) else none)
      (inst', calls)

/-! ## Narrow-surface bank dispatch (`v2_apply_param`) -/

/-- The engine calls of one `v2_apply_param(bank, idx, value)` switch
arm (each C setter recorded as the slot it sets). -/
def bankCalls (bank : ℤ) (idx : ℕ) (value : ℚ) : List EngineCall :=
  if bank = 0 then
    match idx with
    | 0 => [.setSlot CUTOFF value]
    | 1 => [.setSlot RESONANCE value]
    | 2 => [.setSlot ENVELOPE_AMT value]
    | 3 => [.setSlot FLT_KF value]
    | 4 => [.setSlot LATK value]
    | 5 => [.setSlot LDEC value]
    | 6 => [.setSlot LSUS value]
    | 7 => [.setSlot LREL value]
    | _ => []
  else if bank = 1 then
    match idx with
    | 0 => [.setSlot OSC1Saw (if value > 1/2 then 1 else 0),
            .setSlot OSC1Pul (if value > 1/2 then 0 else 1)]
    | 1 => [.setSlot OSC2Saw (if value > 1/2 then 1 else 0),
            .setSlot OSC2Pul (if value > 1/2 then 0 else 1)]
    | 2 => [.setSlot OSC1MIX value, .setSlot OSC2MIX (1 - value)]
    | 3 => [.setSlot NOISEMIX value]
    | 4 => [.setSlot PW value]
    | 5 => [.setSlot OSC2_DET value]
    | 6 => [.setSlot OSC1P value]
    | 7 => [.setSlot OSC2P value]
    | _ => []
  else if bank = 2 then
    match idx with
    | 0 => [.setSlot LFOFREQ value]
    | 1 => [.setSlot LFOSINWAVE (if value > 1/2 then 1 else 0),
            .setSlot LFOSQUAREWAVE (if value > 1/2 then 0 else 1)]
    | 2 => [.setSlot LFOFILTER value]
    | 3 => [.setSlot LFOOSC1 value, .setSlot LFOOSC2 value]
    | 4 => [.setSlot LFOPW1 value, .setSlot LFOPW2 value]
    | 5 => [.setSlot LFO1AMT value]
    | 6 => [.setSlot UNISON value]
    | 7 => [.setSlot PORTAMENTO value]
    | _ => []
  else []

/-- `v2_apply_param`: store the raw value at vector slot
`bank * 8 + idx`, then run the bank/idx switch against the engine. -/
def v2_apply_param (inst : Instance) (bank : ℤ) (idx : ℕ) (value : ℚ) :
    Instance × List EngineCall :=
  let param_idx := (bank * 8 + idx).toNat
  ({ inst with params := fun j => if j = param_idx then value else inst.params j },
   bankCalls bank idx value)

/-! ## ParamsEnum-indexed dispatch (`v2_apply_param_direct`) -/

/-- The slots named as cases of the `v2_apply_param_direct` switch; a
slot in this list gets its own setter called with the stored value,
any other slot hits `default: break` (vector write only). -/
def directSlots : List ℕ := [
  VOLUME, TUNE, OCTAVE, VOICE_COUNT, LEGATOMODE, PORTAMENTO, UNISON, UDET,
  OSC1Saw, OSC1Pul, OSC1P, OSC1MIX,
  OSC2Saw, OSC2Pul, OSC2P, OSC2MIX, OSC2_DET, OSC2HS,
  PW, PW_ENV, PW_ENV_BOTH, PW_OSC2_OFS, NOISEMIX, XMOD, BRIGHTNESS,
  CUTOFF, RESONANCE, ENVELOPE_AMT, FLT_KF, MULTIMODE, BANDPASS, FOURPOLE,
  SELF_OSC_PUSH, FENV_INVERT,
  FATK, FDEC, FSUS, FREL, VFLTENV,
  LATK, LDEC, LSUS, LREL, VAMPENV,
  LFOFREQ, LFOSINWAVE, LFOSQUAREWAVE, LFOSHWAVE, LFO_SYNC, LFO1AMT, LFO2AMT,
  LFOOSC1, LFOOSC2, LFOFILTER, LFOPW1, LFOPW2,
  ENVPITCH, ENV_PITCH_BOTH, BENDRANGE, BENDLFORATE]

/-- `v2_apply_param_direct`: guard the slot range, store the value at
the slot, and call that slot's setter when the switch names it. -/
def v2_apply_param_direct (inst : Instance) (param_idx : ℤ) (value : ℚ) :
    Instance × List EngineCall :=
  if param_idx < 0 ∨ param_idx ≥ (PARAM_COUNT : ℤ) then (inst, [])
  else
    let s := param_idx.toNat
    ({ inst with params := fun j => if j = s then value else inst.params j },
     if s ∈ directSlots then [.setSlot s value] else [])

/-! ## JSON state snapshot and restore -/

/-- The left-brace character (written by code point to keep JSON
literals free of raw braces). -/
def lbrace : Char := Char.ofNat 123

/-- The right-brace character. -/
def rbrace : Char := Char.ofNat 125

/-- `json_get_number(json, key, &out)`: search for `"key":`, skip
spaces, `atof` the remainder.  `none` models the `-1` (not found)
return. -/
def json_get_number (json key : String) : Option Rat :=
  let search := '"' :: key.data ++ ['"', ':']
  match firstIdx json.data search with
  | none => none
  | some pos =>
    some (parse_float ((json.data.drop (pos + search.length)).dropWhile (fun c => c = ' ')))

/-- The key/value pairs of the `state` snapshot, in serialization
order: `preset` and `octave_transpose` (`%d`), then every shadow
parameter (`%.4f`). -/
def stateEntries (inst : Instance) : List (String × String) :=
  ("preset", String.mk (fmt_int inst.current_preset)) ::
  ("octave_transpose", String.mk (fmt_int inst.octave_transpose)) ::
  g_shadow_params.map (fun d => (d.key, String.mk (fmt_fixed 4 (inst.params d.index))))

/-- Comma-separated `"key":value` rendering of entry pairs. -/
def renderJsonBody : List (String × String) → List Char
  | [] => []
  | [kv] => '"' :: kv.1.data ++ '"' :: ':' :: kv.2.data
  | kv :: rest => '"' :: kv.1.data ++ '"' :: ':' :: kv.2.data ++ ',' :: renderJsonBody rest

/-- The `state` JSON string built by `v2_get_param("state")`. -/
def serializeState (inst : Instance) : String :=
  String.mk (lbrace :: renderJsonBody (stateEntries inst) ++ [rbrace])

/-- The `state` branch of `v2_set_param`: restore the preset first,
then `octave_transpose`, then every shadow parameter through the
clamped ParamsEnum dispatch, in table order. -/
def restoreState (inst : Instance) (val : String) : Instance × List EngineCall :=
  let step1 :=
    match json_get_number val "preset" with
    | some f =>
      let idx := truncQ f
      if 0 ≤ idx ∧ idx < (inst.preset_count : Int) then
        v2_apply_preset { inst with current_preset := idx } idx
      else (inst, [])
    | none => (inst, [])
  let inst2 :=
    match json_get_number val "octave_transpose" with
    | some f => { step1.1 with octave_transpose := clampZ (-3) 3 (truncQ f) }
    | none => step1.1
  g_shadow_params.foldl
    (fun acc d =>
      match json_get_number val d.key with
      | some f =>
        let r := v2_apply_param_direct acc.1 d.index (clampQ d.min_val d.max_val f)
        (r.1, acc.2 ++ r.2)
      | none => acc)
    (inst2, step1.2)

/-! ## Control protocol: `v2_set_param` -/

/-- `v2_set_param`, with the source's key-namespace priority order:
`state`, `preset`, `octave_transpose`, `param_bank`, the narrow-surface
`param_<idx>` prefix, then the shadow table (first match, clamped). -/
def v2_set_param (inst : Instance) (key val : String) : Instance × List EngineCall :=
  if key = "state" then restoreState inst val
  else if key = "preset" then
    let idx := parse_int_s val
    if 0 ≤ idx ∧ idx < (inst.preset_count : Int) then
      v2_apply_preset { inst with current_preset := idx } idx
    else (inst, [])
  else if key = "octave_transpose" then
    ({ inst with octave_transpose := clampZ (-3) 3 (parse_int_s val) }, [])
  else if key = "param_bank" then
    ({ inst with param_bank := clampZ 0 2 (parse_int_s val) }, [])
  else if "param_".data.isPrefixOf key.data then
    let idx := parse_int (key.data.drop 6)
    if 0 ≤ idx ∧ idx < 8 then
      v2_apply_param inst inst.param_bank idx.toNat (parse_float_s val)
    else (inst, [])
  else
    match g_shadow_params.find? (fun d => d.key = key) with
    | some d =>
      v2_apply_param_direct inst d.index (clampQ d.min_val d.max_val (parse_float_s val))
    | none => (inst, [])

/-! ## Control protocol: `v2_get_param` -/

/-- `param_helper_get` of param_helper.h: linear key lookup, `%d` of
the truncated value for INT entries, `%.3f` for FLOAT entries. -/
def param_helper_get (defs : List ParamDef) (values : Nat → Rat) (key : String) :
    Option String :=
  match defs.find? (fun d => d.key = key) with
  | some d =>
    if d.type = .INT then some (String.mk (fmt_int (truncQ (values d.index))))
    else some (String.mk (fmt_fixed 3 (values d.index)))
  | none => none

/-- The static `ui_hierarchy` JSON literal returned by `v2_get_param`
(braces written as code-point escapes). -/
def uiHierarchyJson : String :=
  "\x7b\"modes\":null,\"levels\":\x7b\"root\":\x7b\"list_param\":\"preset\",\"count_param\":\"preset_count\",\"name_param\":\"preset_name\",\"children\":\"main\",\"knobs\":[\"cutoff\",\"resonance\",\"filter_env\",\"attack\",\"decay\",\"sustain\",\"release\",\"octave_transpose\"],\"params\":[]\x7d,\"main\":\x7b\"children\":null,\"knobs\":[\"cutoff\",\"resonance\",\"filter_env\",\"attack\",\"decay\",\"sustain\",\"release\",\"octave_transpose\"],\"params\":[\x7b\"level\":\"global\",\"label\":\"Global\"\x7d,\x7b\"level\":\"osc1\",\"label\":\"Oscillator 1\"\x7d,\x7b\"level\":\"osc2\",\"label\":\"Oscillator 2\"\x7d,\x7b\"level\":\"osc_common\",\"label\":\"Osc Common\"\x7d,\x7b\"level\":\"filter\",\"label\":\"Filter\"\x7d,\x7b\"level\":\"filt_env\",\"label\":\"Filter Env\"\x7d,\x7b\"level\":\"amp_env\",\"label\":\"Amp Env\"\x7d,\x7b\"level\":\"lfo\",\"label\":\"LFO\"\x7d,\x7b\"level\":\"lfo_dest\",\"label\":\"LFO Dest\"\x7d,\x7b\"level\":\"pitch_mod\",\"label\":\"Pitch Mod\"\x7d]\x7d,\"global\":\x7b\"children\":null,\"knobs\":[\"volume\",\"tune\",\"octave\",\"portamento\",\"unison\",\"unison_det\",\"legato\",\"octave_transpose\"],\"params\":[\"volume\",\"tune\",\"octave\",\"portamento\",\"unison\",\"unison_det\",\"legato\",\"octave_transpose\"]\x7d,\"osc1\":\x7b\"children\":null,\"knobs\":[\"osc1_saw\",\"osc1_pulse\",\"osc1_pitch\",\"osc1_mix\"],\"params\":[\"osc1_saw\",\"osc1_pulse\",\"osc1_pitch\",\"osc1_mix\"]\x7d,\"osc2\":\x7b\"children\":null,\"knobs\":[\"osc2_saw\",\"osc2_pulse\",\"osc2_pitch\",\"osc2_mix\",\"osc2_detune\",\"osc2_sync\"],\"params\":[\"osc2_saw\",\"osc2_pulse\",\"osc2_pitch\",\"osc2_mix\",\"osc2_detune\",\"osc2_sync\"]\x7d,\"osc_common\":\x7b\"children\":null,\"knobs\":[\"pw\",\"pw_env\",\"noise\",\"xmod\",\"brightness\"],\"params\":[\"pw\",\"pw_env\",\"pw_env_both\",\"pw_ofs\",\"noise\",\"xmod\",\"brightness\"]\x7d,\"filter\":\x7b\"children\":null,\"knobs\":[\"cutoff\",\"resonance\",\"filter_env\",\"key_follow\",\"multimode\",\"fourpole\"],\"params\":[\"cutoff\",\"resonance\",\"filter_env\",\"key_follow\",\"multimode\",\"bandpass\",\"fourpole\",\"self_osc\",\"fenv_inv\"]\x7d,\"filt_env\":\x7b\"children\":null,\"knobs\":[\"f_attack\",\"f_decay\",\"f_sustain\",\"f_release\",\"vel_filter\"],\"params\":[\"f_attack\",\"f_decay\",\"f_sustain\",\"f_release\",\"vel_filter\"]\x7d,\"amp_env\":\x7b\"children\":null,\"knobs\":[\"attack\",\"decay\",\"sustain\",\"release\",\"vel_amp\"],\"params\":[\"attack\",\"decay\",\"sustain\",\"release\",\"vel_amp\"]\x7d,\"lfo\":\x7b\"children\":null,\"knobs\":[\"lfo_rate\",\"lfo_sin\",\"lfo_square\",\"lfo_sh\",\"lfo_amt1\",\"lfo_amt2\"],\"params\":[\"lfo_rate\",\"lfo_sin\",\"lfo_square\",\"lfo_sh\",\"lfo_sync\",\"lfo_amt1\",\"lfo_amt2\"]\x7d,\"lfo_dest\":\x7b\"children\":null,\"knobs\":[\"lfo_osc1\",\"lfo_osc2\",\"lfo_filter\",\"lfo_pw1\",\"lfo_pw2\"],\"params\":[\"lfo_osc1\",\"lfo_osc2\",\"lfo_filter\",\"lfo_pw1\",\"lfo_pw2\"]\x7d,\"pitch_mod\":\x7b\"children\":null,\"knobs\":[\"env_pitch\",\"bend_range\",\"vibrato\"],\"params\":[\"env_pitch\",\"env_pitch_both\",\"bend_range\",\"vibrato\"]\x7d\x7d\x7d"

/-- `%g` of a bound as used by the `chain_params` generator; every
bound in this plugin's tables is integral (`0`, `1`, `-3`, `3`,
`9999`), for which `%g` prints the bare integer. -/
def fmt_g (q : Rat) : String :=
  if q.den = 1 then String.mk (fmt_int q.num) else String.mk (fmt_fixed 6 q)

/-- One `chain_params` element. -/
def chainParamEntry (key name type min_s max_s : String) : String :=
  String.mk (lbrace :: String.data
    ("\"key\":\"" ++ key ++ "\",\"name\":\"" ++ name ++ "\",\"type\":\"" ++ type ++
     "\",\"min\":" ++ min_s ++ ",\"max\":" ++ max_s) ++ [rbrace])

/-- The `chain_params` JSON built by `v2_get_param`: fixed `preset` and
`octave_transpose` entries, then every shadow parameter. -/
def chainParamsJson : String :=
  "[" ++ chainParamEntry "preset" "Preset" "int" "0" "9999" ++ "," ++
  chainParamEntry "octave_transpose" "Octave" "int" "-3" "3" ++
  String.join (g_shadow_params.map (fun d =>
    "," ++ chainParamEntry d.key (if d.name = "" then d.key else d.name)
      (if d.type = .INT then "int" else "float") (fmt_g d.min_val) (fmt_g d.max_val))) ++
  "]"

/-- `v2_get_param`, with the source's branch order.  The C buffer-size
bookkeeping (`buf`, `buf_len`) is dropped: every branch is modelled as
producing its full formatted string, and the not-found `-1` return is
`none`.  A `param_name_<i>`/`param_<i>` branch whose inner range check
fails falls through to the later branches, as in the source. -/
def v2_get_param (inst : Instance) (key : String) : Option String :=
  if key = "preset" then some (String.mk (fmt_int inst.current_preset))
  else if key = "preset_count" then some (String.mk (fmt_int inst.preset_count))
  else if key = "preset_name" then some inst.preset_name
  else if key = "name" then some "OB-Xd"
  else if key = "octave_transpose" then some (String.mk (fmt_int inst.octave_transpose))
  else if key = "param_bank" then some (String.mk (fmt_int inst.param_bank))
  else if "param_name_".data.isPrefixOf key.data ∧
      (let idx := parse_int (key.data.drop 11)
       0 ≤ idx ∧ idx < 8 ∧ 0 ≤ inst.param_bank ∧ inst.param_bank < 3) then
    some (((g_param_names.getD inst.param_bank.toNat []).getD
      (parse_int (key.data.drop 11)).toNat ""))
  else if "param_".data.isPrefixOf key.data ∧
      (let idx := parse_int (key.data.drop 6); 0 ≤ idx ∧ idx < 8) then
    some (String.mk (fmt_fixed 3
      (inst.params (inst.param_bank * 8 + parse_int (key.data.drop 6)).toNat)))
  else
    match param_helper_get g_shadow_params inst.params key with
    | some s => some s
    | none =>
      if key = "ui_hierarchy" then some uiHierarchyJson
      else if key = "state" then some (serializeState inst)
      else if key = "chain_params" then some chainParamsJson
      else none

/-! ## MIDI decoder (`v2_on_midi`) -/

/-- `v2_on_midi`.  Message bytes are `uint8_t`; the model reduces each
byte mod 256.  The `source` tag is accepted and ignored, exactly as the
source's `(void)source;` discards it.  The instance is never written, so
it is returned unchanged alongside the engine calls. -/
def v2_on_midi (inst : Instance) (msg : List Nat) (len : Int) (source : Int) :
    Instance × List EngineCall :=
  if len < 2 then (inst, [])
  else
    let status := msg.getD 0 0 % 256 &&& 0xF0
    let data1 := msg.getD 1 0 % 256
    let data2 := if len > 2 then msg.getD 2 0 % 256 else 0
    let note : Int :=
      if status = 0x90 ∨ status = 0x80 then
        clampZ 0 127 ((data1 : Int) + inst.octave_transpose * 12)
      else (data1 : Int)
    let calls : List EngineCall :=
      if status = 0x90 then
        if data2 > 0 then [.noteOn note.toNat ((data2 : Rat) / 127)]
        else [.noteOff note.toNat]
      else if status = 0x80 then [.noteOff note.toNat]
      else if status = 0xB0 then
        if data1 = 1 then [.modWheel ((data2 : Rat) / 127)]
        else if data1 = 64 then
          if data2 ≥ 64 then [.sustainOn] else [.sustainOff]
        else []
      else if status = 0xE0 then
        [.pitchWheel (((((data2 <<< 7) ||| data1 : Nat) : Rat) - 8192) / 8192)]
      else []
    let _ := source
    (inst, calls)

/-! ## Render pipeline (`v2_render_block`) -/

/-- One channel's float-to-int16 conversion: gain, scale by 32767,
truncate toward zero, clamp to the int16 range. -/
def convertSample (gain s : Rat) : Int :=
  clampZ (-32768) 32767 (truncQ (s * gain * 32767))

/-- `v2_render_block`.  The engine's per-sample output is the input
list `samples` (one stereo rational pair per frame, `frames =
samples.length`); the interleaved int16 output buffer is the returned
integer list.  A null instance (or null engine handle) yields the
`memset` silence path. -/
def v2_render_block (inst : Option Instance) (samples : List (Rat × Rat)) : List Int :=
  match inst with
  | none => List.replicate (2 * samples.length) 0
  | some inst =>
    samples.flatMap (fun lr =>
      [convertSample inst.output_gain lr.1, convertSample inst.output_gain lr.2])

/-! ## Predicates and concrete data used by the verification -/

/-- Every parameter-vector slot referenced by a shadow descriptor
equals the last value pushed to the engine through that slot (slots
never pushed are unconstrained). -/
def ShadowConsistent (inst : Instance) (m : EngineMap) : Prop :=
  ∀ d ∈ g_shadow_params, ∀ v, m d.index = some v → inst.params d.index = v

/-- Characters that terminate numeral parsing (neither digits nor a
decimal point). -/
def StopChar (rest : List Char) : Prop :=
  ∀ c, rest.head? = some c → isDigitChar c = false ∧ c ≠ '.'

/-- A well-behaved JSON key: nonempty, no quote, no colon. -/
abbrev GoodKey (k : List Char) : Prop := k ≠ [] ∧ '"' ∉ k ∧ ':' ∉ k

/-- A well-behaved numeral value: nonempty, only digits, `-` and `.`. -/
abbrev GoodVal (v : List Char) : Prop :=
  v ≠ [] ∧ ∀ c ∈ v, isDigitChar c = true ∨ c = '-' ∨ c = '.'

/-- A one-preset example record ("Lead", cutoff 0.9, resonance 0.1,
populated through slot 45). -/
def exPreset : Preset :=
  ⟨"Lead", fun i => if i = 44 then 9/10 else if i = 45 then 1/10 else 0, 46⟩

/-- An example instance holding `exPreset`. -/
def exInstance : Instance :=
  ⟨0, 1, 0, 0, "Init", fun _ => 0, [exPreset], 1/2⟩

/-- The document of the C2 counterexample: two program elements, where
only the second carries a `Val_0` attribute. -/
def c2doc : List Char :=
  "<?xml?><program programName=\"A\"/><program programName=\"B\" Val_0=\"0.5\"/>".data

/-- The full text of the first element of `c2doc` (from its start to
its self-closing end). -/
def c2elem0 : List Char := "<program programName=\"A\"/>".data

/-- The instance of the C5 counterexample: bank cursor on bank 1
(oscillators), all parameters zero. -/
def c5inst : Instance := ⟨0, 0, 1, 0, "Init", fun _ => 0, [], 1/2⟩

/-- The `osc1_mix` descriptor (engine slot `OSC1MIX` = 40). -/
def c5osc1mix : ParamDef := ⟨"osc1_mix", "Osc1 Mix", .FLOAT, OSC1MIX, 0, 1⟩

/-- A well-formed instance for exercising the state round trip: every
shadow value inside its clamp range and the octave transpose in
`[-3, 3]`. -/
def c9winst : Instance :=
  { current_preset := 0, preset_count := 0, param_bank := 0,
    octave_transpose := 0, preset_name := "Init", params := fun _ => 0,
    presets := [], output_gain := 1 }

/-- An instance holding an out-of-range shadow value (slot `CUTOFF`
carries `3/2`, above the clamp ceiling `1`), reachable because the
narrow-surface bank dispatch stores raw values. -/
def c9inst : Instance :=
  { current_preset := 0, preset_count := 0, param_bank := 0,
    octave_transpose := 0, preset_name := "Init",
    params := fun i => if i = CUTOFF then 3/2 else 0,
    presets := [], output_gain := 1 }

/-! ## General helper lemmas -/

/-- The fuel bound is irrelevant once it exceeds the argument. -/
lemma natDigitsAux_congr (fuel₁ fuel₂ n : ℕ) (h₁ : n < fuel₁) (h₂ : n < fuel₂) :
    natDigitsAux fuel₁ n = natDigitsAux fuel₂ n := by
  induction fuel₁ using Nat.strong_induction_on generalizing fuel₂ n with
  | _ fuel₁ ih =>
    cases fuel₁ with
    | zero => omega
    | succ f₁ =>
      cases fuel₂ with
      | zero => omega
      | succ f₂ =>
        by_cases h10 : n < 10
        · simp [natDigitsAux, h10]
        · have hdiv : n / 10 < n := Nat.div_lt_self (by omega) (by omega)
          simp only [natDigitsAux, if_neg h10]
          rw [ih f₁ (by omega) f₂ (n / 10) (by omega) (by omega)]

/-- The defining recursion of `natDigits`. -/
lemma natDigits_eq (n : ℕ) :
    natDigits n =
      if n < 10 then [digitChar n]
      else natDigits (n / 10) ++ [digitChar (n % 10)] := by
  unfold natDigits
  by_cases h10 : n < 10
  · simp [natDigitsAux, h10]
  · have hdiv : n / 10 < n := Nat.div_lt_self (by omega) (by omega)
    simp only [natDigitsAux, if_neg h10]
    rw [natDigitsAux_congr n (n / 10 + 1) (n / 10) (by omega) (by omega)]
    rfl

/-- Truncation toward zero commutes with negation (unlike the floor). -/
lemma truncQ_neg (q : ℚ) : truncQ (-q) = -truncQ q := by
  unfold truncQ
  rw [Rat.neg_num, Rat.neg_den]
  exact Int.neg_tdiv _ _

/-- On nonnegative rationals, truncation toward zero is the floor. -/
lemma truncQ_of_nonneg (q : ℚ) (h : 0 ≤ q) : truncQ q = ⌊q⌋ := by
  unfold truncQ
  rw [Rat.floor_def]
  exact Int.tdiv_eq_ediv (Rat.num_nonneg.mpr h) (Int.natCast_nonneg _)

/-- `clampZ` stays within its bounds. -/
lemma clampZ_mem (lo hi v : ℤ) (h : lo ≤ hi) :
    lo ≤ clampZ lo hi v ∧ clampZ lo hi v ≤ hi := by
  unfold clampZ
  dsimp only
  split_ifs <;> omega

/-- `clampQ` stays within its bounds. -/
lemma clampQ_mem (lo hi v : ℚ) (h : lo ≤ hi) :
    lo ≤ clampQ lo hi v ∧ clampQ lo hi v ≤ hi := by
  unfold clampQ
  dsimp only
  constructor <;> split_ifs <;> linarith

/-- `clampQ` is the identity inside the bounds. -/
lemma clampQ_of_mem (lo hi v : ℚ) (h1 : lo ≤ v) (h2 : v ≤ hi) :
    clampQ lo hi v = v := by
  unfold clampQ
  dsimp only
  split_ifs <;> linarith

/-- `clampZ` is the identity inside the bounds. -/
lemma clampZ_of_mem (lo hi v : ℤ) (h1 : lo ≤ v) (h2 : v ≤ hi) :
    clampZ lo hi v = v := by
  unfold clampZ
  dsimp only
  split_ifs <;> omega

/-- Pointwise description of running a guarded per-slot push list over
the engine state: a slot of the (duplicate-free) list that passes the
guard holds the pushed value afterwards, every other slot is untouched. -/
lemma applyCalls_filterMap (L : List ℕ) (hL : L.Nodup) (P : ℕ → Prop)
    [DecidablePred P] (f : ℕ → ℚ) (m : EngineMap) (j : ℕ) :
    applyCalls m (L.filterMap
        (fun e => if P e then some (EngineCall.setSlot e (f e)) else none)) j =
      if j ∈ L ∧ P j then some (f j) else m j := by
  induction L generalizing m with
  | nil => simp [applyCalls]
  | cons e L ih =>
    rcases List.nodup_cons.mp hL with ⟨he, hL'⟩
    by_cases hPe : P e
    · simp only [List.filterMap_cons, if_pos hPe]
      show applyCalls (applyCall m (EngineCall.setSlot e (f e))) _ j = _
      rw [ih hL']
      by_cases hj : j = e
      · subst hj
        simp [applyCall, he, hPe]
      · simp only [applyCall, if_neg hj, List.mem_cons]
        by_cases hjL : j ∈ L ∧ P j
        · simp [hjL, hjL.1]
        · have hne : ¬((j = e ∨ j ∈ L) ∧ P j) := by
            rintro ⟨h1 | h2, h3⟩
            · exact hj h1
            · exact hjL ⟨h2, h3⟩
          simp [hjL, hne]
    · simp only [List.filterMap_cons, if_neg hPe]
      rw [ih hL']
      by_cases hj : j = e
      · subst hj
        simp [hPe, he]
      · simp only [List.mem_cons]
        by_cases hjL : j ∈ L ∧ P j
        · simp [hjL, hjL.1]
        · have hne : ¬((j = e ∨ j ∈ L) ∧ P j) := by
            rintro ⟨h1 | h2, h3⟩
            · exact hj h1
            · exact hjL ⟨h2, h3⟩
          simp [hjL, hne]

/-- `applyPresetSlots` has no duplicate slots. -/
lemma applyPresetSlots_nodup : applyPresetSlots.Nodup := by decide

/-- The calls of an in-range `v2_apply_preset` are the guarded push
list over `applyPresetSlots`. -/
lemma apply_preset_calls (inst : Instance) (idx : ℤ) (p : Preset)
    (h0 : 0 ≤ idx) (h1 : idx < (inst.preset_count : ℤ))
    (hp : inst.presets.get? idx.toNat = some p) :
    (v2_apply_preset inst idx).2 = applyPresetSlots.filterMap
      (fun e => if p.param_count > e then some (EngineCall.setSlot e (p.params e)) else none) := by
  have hcond : ¬(idx < 0 ∨ idx ≥ (inst.preset_count : ℤ)) := by omega
  simp only [v2_apply_preset, if_neg hcond, hp]

/-- The instance an in-range `v2_apply_preset` produces. -/
lemma apply_preset_fst (inst : Instance) (idx : ℤ) (p : Preset)
    (h0 : 0 ≤ idx) (h1 : idx < (inst.preset_count : ℤ))
    (hp : inst.presets.get? idx.toNat = some p) :
    (v2_apply_preset inst idx).1 = { inst with
      preset_name := String.mk (p.name.data.take 63),
      params := fun i =>
        if i < p.param_count ∧ i < PARAM_COUNT then p.params i else inst.params i } := by
  have hcond : ¬(idx < 0 ∨ idx ≥ (inst.preset_count : ℤ)) := by omega
  simp only [v2_apply_preset, if_neg hcond, hp]

/-- C1: For an in-range preset index, `v2_apply_preset` copies
`values[i]` into the parameter vector for every populated slot
`i < populated_count` (within the vector), leaves every slot with index
`≥ populated_count` at its pre-apply value, pushes to the engine
exactly the historically-defined slots (`applyPresetSlots`) with
`populated_count > slot` — each receiving `values[slot]`, with no other
engine call — and applying the same preset twice yields the same final
instance and engine state as applying it once. -/
theorem C1_apply_preset_compat (inst : Instance) (idx : ℤ) (p : Preset)
    (h0 : 0 ≤ idx) (h1 : idx < (inst.preset_count : ℤ))
    (hp : inst.presets.get? idx.toNat = some p) :
    (∀ i, i < p.param_count → i < PARAM_COUNT →
      (v2_apply_preset inst idx).1.params i = p.params i) ∧
    (∀ i, p.param_count ≤ i →
      (v2_apply_preset inst idx).1.params i = inst.params i) ∧
    (∀ e v, EngineCall.setSlot e v ∈ (v2_apply_preset inst idx).2 ↔
      (e ∈ applyPresetSlots ∧ p.param_count > e ∧ v = p.params e)) ∧
    (v2_apply_preset inst idx).2.Nodup ∧
    (∀ c ∈ (v2_apply_preset inst idx).2,
      ∃ e ∈ applyPresetSlots, p.param_count > e ∧ c = EngineCall.setSlot e (p.params e)) ∧
    (v2_apply_preset (v2_apply_preset inst idx).1 idx).1 = (v2_apply_preset inst idx).1 ∧
    (∀ m : EngineMap,
      applyCalls (applyCalls m (v2_apply_preset inst idx).2)
        (v2_apply_preset (v2_apply_preset inst idx).1 idx).2 =
      applyCalls m (v2_apply_preset inst idx).2) := by
  have hfst := apply_preset_fst inst idx p h0 h1 hp
  have hcalls := apply_preset_calls inst idx p h0 h1 hp
  have hfst2 : (v2_apply_preset (v2_apply_preset inst idx).1 idx).1 =
      (v2_apply_preset inst idx).1 := by
    have hp2 : (v2_apply_preset inst idx).1.presets.get? idx.toNat = some p := by
      rw [hfst]; exact hp
    have h1' : idx < ((v2_apply_preset inst idx).1.preset_count : ℤ) := by
      rw [hfst]; exact h1
    rw [apply_preset_fst _ idx p h0 h1' hp2]
    rw [hfst]
    congr 1
    funext i
    by_cases hi : i < p.param_count ∧ i < PARAM_COUNT <;> simp [hi]
  have hcalls2 : (v2_apply_preset (v2_apply_preset inst idx).1 idx).2 =
      (v2_apply_preset inst idx).2 := by
    have hp2 : (v2_apply_preset inst idx).1.presets.get? idx.toNat = some p := by
      rw [hfst]; exact hp
    have h1' : idx < ((v2_apply_preset inst idx).1.preset_count : ℤ) := by
      rw [hfst]; exact h1
    rw [apply_preset_calls _ idx p h0 h1' hp2, hcalls]
  refine ⟨?_, ?_, ?_, ?_, ?_, hfst2, ?_⟩
  · intro i hi1 hi2
    rw [hfst]
    simp [hi1, hi2]
  · intro i hi
    rw [hfst]
    have : ¬(i < p.param_count ∧ i < PARAM_COUNT) := by omega
    simp [this]
  · intro e v
    rw [hcalls]
    constructor
    · intro hmem
      rcases List.mem_filterMap.mp hmem with ⟨a, ha, hfa⟩
      by_cases hc : p.param_count > a
      · simp only [if_pos hc] at hfa
        obtain ⟨rfl, rfl⟩ : a = e ∧ p.params a = v := by
          injection hfa with h
          injection h with h1 h2
          exact ⟨h1, h2⟩
        exact ⟨ha, hc, rfl⟩
      · simp [hc] at hfa
    · rintro ⟨he, hc, rfl⟩
      exact List.mem_filterMap.mpr ⟨e, he, by simp [hc]⟩
  · rw [hcalls]
    refine List.Nodup.filterMap ?_ applyPresetSlots_nodup
    intro a a' b hb hb'
    by_cases hc : p.param_count > a
    · by_cases hc' : p.param_count > a'
      · simp only [if_pos hc] at hb
        simp only [if_pos hc'] at hb'
        rw [Option.mem_def] at hb hb'
        injection hb.trans hb'.symm with h
        injection h
      · simp [hc'] at hb'
    · simp [hc] at hb
  · intro c hc
    rw [hcalls] at hc
    rcases List.mem_filterMap.mp hc with ⟨a, ha, hfa⟩
    by_cases hcnt : p.param_count > a
    · simp only [if_pos hcnt, Option.some_inj] at hfa
      exact ⟨a, ha, hcnt, hfa.symm⟩
    · simp [hcnt] at hfa
  · intro m
    rw [hcalls2, hcalls]
    funext j
    rw [applyCalls_filterMap _ applyPresetSlots_nodup,
      applyCalls_filterMap _ applyPresetSlots_nodup]
    by_cases hj : j ∈ applyPresetSlots ∧ p.param_count > j <;> simp [hj]

/-- Witness for C1 at a concrete instance and preset index. -/
theorem C1_witness :
    (0 ≤ (0 : ℤ) ∧ (0 : ℤ) < (exInstance.preset_count : ℤ) ∧
      exInstance.presets.get? (0 : ℤ).toNat = some exPreset) ∧
    ((∀ i, i < exPreset.param_count → i < PARAM_COUNT →
      (v2_apply_preset exInstance 0).1.params i = exPreset.params i) ∧
    (∀ i, exPreset.param_count ≤ i →
      (v2_apply_preset exInstance 0).1.params i = exInstance.params i) ∧
    (∀ e v, EngineCall.setSlot e v ∈ (v2_apply_preset exInstance 0).2 ↔
      (e ∈ applyPresetSlots ∧ exPreset.param_count > e ∧ v = exPreset.params e)) ∧
    (v2_apply_preset exInstance 0).2.Nodup ∧
    (∀ c ∈ (v2_apply_preset exInstance 0).2,
      ∃ e ∈ applyPresetSlots, exPreset.param_count > e ∧
        c = EngineCall.setSlot e (exPreset.params e)) ∧
    (v2_apply_preset (v2_apply_preset exInstance 0).1 0).1 =
      (v2_apply_preset exInstance 0).1 ∧
    (∀ m : EngineMap,
      applyCalls (applyCalls m (v2_apply_preset exInstance 0).2)
        (v2_apply_preset (v2_apply_preset exInstance 0).1 0).2 =
      applyCalls m (v2_apply_preset exInstance 0).2)) :=
  ⟨⟨le_refl 0, by decide, rfl⟩,
    C1_apply_preset_compat exInstance 0 exPreset (le_refl 0) (by decide) rfl⟩

/-- C8: For a preset index outside `[0, preset_count)`, applying the
preset directly and applying it through `set_param("preset", ...)` are
both no-ops: the instance is returned unchanged and no engine call is
made. -/
theorem C8_out_of_range_preset_noop (inst : Instance) (idx : ℤ) (v : String)
    (h : idx < 0 ∨ (inst.preset_count : ℤ) ≤ idx) (hv : parse_int_s v = idx) :
    v2_apply_preset inst idx = (inst, []) ∧
    v2_set_param inst "preset" v = (inst, []) := by
  have hcond : idx < 0 ∨ idx ≥ (inst.preset_count : ℤ) := by omega
  constructor
  · simp [v2_apply_preset, hcond]
  · have hrange : ¬(0 ≤ parse_int_s v ∧ parse_int_s v < (inst.preset_count : ℤ)) := by
      rw [hv]; omega
    simp [v2_set_param, hrange]

/-- Witness for C8 at index 5 against a one-preset instance. -/
theorem C8_witness :
    (((5 : ℤ) < 0 ∨ (exInstance.preset_count : ℤ) ≤ 5) ∧ parse_int_s "5" = 5) ∧
    (v2_apply_preset exInstance 5 = (exInstance, []) ∧
      v2_set_param exInstance "preset" "5" = (exInstance, [])) :=
  ⟨⟨by decide, by decide⟩,
    C8_out_of_range_preset_noop exInstance 5 "5" (by decide) (by decide)⟩

/-- C10: `v2_on_midi` is independent of the `source` tag: two calls
differing only in the source produce the same instance state and the
same engine call sequence. -/
theorem C10_midi_source_independent (inst : Instance) (msg : List ℕ) (len : ℤ)
    (source1 source2 : ℤ) :
    v2_on_midi inst msg len source1 = v2_on_midi inst msg len source2 := rfl

/-- C6: For a 3-byte message whose status nibble is Note On (0x90) or
Note Off (0x80), the decoder adds `octave_transpose * 12` to the note,
clamps to `[0,127]`, and emits exactly one `noteOn(note, vel/127)` for
Note On with positive velocity, and one `noteOff(note)` for Note On
with zero velocity or for Note Off status; in particular the concrete
pair `[0x90,60,100]`, `[0x80,60,0]` at zero transpose produces exactly
`noteOn 60 (100/127)` then `noteOff 60`. -/
theorem C6_note_decode (inst : Instance) (s d1 d2 : ℕ) (src : ℤ)
    (hs : s % 256 &&& 0xF0 = 0x90 ∨ s % 256 &&& 0xF0 = 0x80) :
    v2_on_midi inst [s, d1, d2] 3 src =
      (inst,
        if s % 256 &&& 0xF0 = 0x90 then
          if d2 % 256 > 0 then
            [EngineCall.noteOn
              (clampZ 0 127 (((d1 % 256 : ℕ) : ℤ) + inst.octave_transpose * 12)).toNat
              (((d2 % 256 : ℕ) : ℚ) / 127)]
          else
            [EngineCall.noteOff
              (clampZ 0 127 (((d1 % 256 : ℕ) : ℤ) + inst.octave_transpose * 12)).toNat]
        else
          [EngineCall.noteOff
            (clampZ 0 127 (((d1 % 256 : ℕ) : ℤ) + inst.octave_transpose * 12)).toNat]) ∧
    (inst.octave_transpose = 0 →
      v2_on_midi inst [0x90, 60, 100] 3 src = (inst, [.noteOn 60 (100 / 127)]) ∧
      v2_on_midi inst [0x80, 60, 0] 3 src = (inst, [.noteOff 60])) := by
  constructor
  · rcases hs with h | h <;>
      simp [v2_on_midi, h, List.getD]
  · intro h0
    constructor
    · simp [v2_on_midi, List.getD, h0]
      norm_num
      rfl
    · simp [v2_on_midi, List.getD, h0]
      norm_num
      rfl

/-- Witness for C6 at status 0x90, note 60, velocity 100. -/
theorem C6_witness :
    ((0x90 : ℕ) % 256 &&& 0xF0 = 0x90 ∨ (0x90 : ℕ) % 256 &&& 0xF0 = 0x80) ∧
    (v2_on_midi exInstance [0x90, 60, 100] 3 2 =
      (exInstance,
        if (0x90 : ℕ) % 256 &&& 0xF0 = 0x90 then
          if (100 : ℕ) % 256 > 0 then
            [EngineCall.noteOn
              (clampZ 0 127 ((((60 : ℕ) % 256 : ℕ) : ℤ) + exInstance.octave_transpose * 12)).toNat
              ((((100 : ℕ) % 256 : ℕ) : ℚ) / 127)]
          else
            [EngineCall.noteOff
              (clampZ 0 127 ((((60 : ℕ) % 256 : ℕ) : ℤ) + exInstance.octave_transpose * 12)).toNat]
        else
          [EngineCall.noteOff
            (clampZ 0 127 ((((60 : ℕ) % 256 : ℕ) : ℤ) + exInstance.octave_transpose * 12)).toNat]) ∧
      (exInstance.octave_transpose = 0 →
        v2_on_midi exInstance [0x90, 60, 100] 3 2 = (exInstance, [.noteOn 60 (100 / 127)]) ∧
        v2_on_midi exInstance [0x80, 60, 0] 3 2 = (exInstance, [.noteOff 60]))) :=
  ⟨Or.inl rfl, C6_note_decode exInstance 0x90 60 100 2 (Or.inl rfl)⟩

/-- Index description of a two-per-element flat map. -/
lemma flatMap_pair_get (f g : (ℚ × ℚ) → ℤ) (l : List (ℚ × ℚ)) (i : ℕ)
    (hi : i < l.length) :
    ((l.flatMap fun a => [f a, g a])[2 * i]? = some (f (l.get ⟨i, hi⟩))) ∧
    ((l.flatMap fun a => [f a, g a])[2 * i + 1]? = some (g (l.get ⟨i, hi⟩))) := by
  induction l generalizing i with
  | nil => simp at hi
  | cons a l ih =>
    cases i with
    | zero => simp
    | succ i =>
      have hi' : i < l.length := by simpa using hi
      have := ih i hi'
      constructor
      · have h2 : 2 * (i + 1) = (2 * i) + 2 := by ring
        rw [h2]
        simpa using this.1
      · have h2 : 2 * (i + 1) + 1 = (2 * i + 1) + 2 := by ring
        rw [h2]
        simpa using this.2

/-- Length of a two-per-element flat map. -/
lemma flatMap_pair_length (f g : (ℚ × ℚ) → ℤ) (l : List (ℚ × ℚ)) :
    (l.flatMap fun a => [f a, g a]).length = 2 * l.length := by
  induction l with
  | nil => simp
  | cons a l ih => simp [ih]; ring

/-- C7: rendering `n` frames produces exactly `2n` interleaved values;
sample `i`'s left and right outputs are the engine sample scaled by
`output_gain` and 32767, truncated toward zero and clamped into
`[-32768, 32767]`; every output value lies in that range; a null
instance produces `2n` zeros instead. -/
theorem C7_render_convert (inst : Instance) (samples : List (ℚ × ℚ)) :
    (v2_render_block (some inst) samples).length = 2 * samples.length ∧
    (∀ i (hi : i < samples.length),
      ((v2_render_block (some inst) samples)[2 * i]? =
        some (clampZ (-32768) 32767
          (truncQ ((samples.get ⟨i, hi⟩).1 * inst.output_gain * 32767)))) ∧
      ((v2_render_block (some inst) samples)[2 * i + 1]? =
        some (clampZ (-32768) 32767
          (truncQ ((samples.get ⟨i, hi⟩).2 * inst.output_gain * 32767))))) ∧
    (∀ x ∈ v2_render_block (some inst) samples, -32768 ≤ x ∧ x ≤ 32767) ∧
    v2_render_block none samples = List.replicate (2 * samples.length) 0 := by
  refine ⟨?_, ?_, ?_, rfl⟩
  · exact flatMap_pair_length _ _ samples
  · intro i hi
    exact flatMap_pair_get _ _ samples i hi
  · intro x hx
    rcases List.mem_flatMap.mp hx with ⟨a, _, hxa⟩
    have : x = convertSample inst.output_gain a.1 ∨ x = convertSample inst.output_gain a.2 := by
      simpa using hxa
    rcases this with rfl | rfl <;>
      exact clampZ_mem (-32768) 32767 _ (by norm_num)

/-- Witness for C7 on a concrete frame whose right channel scales to
the negative fractional value `-1 * 0.5 * 32767 = -16383.5`: the C
cast truncates it toward zero to `-16383` (a floor would give
`-16384`), and the left channel's `16383.5` truncates to `16383`. -/
theorem C7_witness :
    0 < ([((1 : ℚ), (-1 : ℚ))] : List (ℚ × ℚ)).length ∧
    (v2_render_block (some exInstance) [((1 : ℚ), (-1 : ℚ))])[2 * 0]? = some 16383 ∧
    (v2_render_block (some exInstance) [((1 : ℚ), (-1 : ℚ))])[2 * 0 + 1]? = some (-16383) := by
  have hlt : 0 < ([((1 : ℚ), (-1 : ℚ))] : List (ℚ × ℚ)).length := by decide
  have h := (C7_render_convert exInstance [((1 : ℚ), (-1 : ℚ))]).2.1 0 hlt
  obtain ⟨hL, hR⟩ := h
  have e1 : (([((1 : ℚ), (-1 : ℚ))].get ⟨0, hlt⟩).1 * exInstance.output_gain * 32767 : ℚ)
      = 32767/2 := by
    show (1 : ℚ) * (1/2) * 32767 = 32767/2
    norm_num
  have e2 : (([((1 : ℚ), (-1 : ℚ))].get ⟨0, hlt⟩).2 * exInstance.output_gain * 32767 : ℚ)
      = -(32767/2) := by
    show (-1 : ℚ) * (1/2) * 32767 = -(32767/2)
    norm_num
  have hfl : (⌊(32767/2 : ℚ)⌋ : ℤ) = 16383 := by
    rw [Int.floor_eq_iff]
    constructor
    · norm_num
    · norm_num
  have htr1 : truncQ (32767/2 : ℚ) = 16383 := by
    rw [truncQ_of_nonneg _ (by norm_num), hfl]
  have htr2 : truncQ (-(32767/2) : ℚ) = -16383 := by
    rw [truncQ_neg, htr1]
  have hcl1 : clampZ (-32768) 32767 16383 = 16383 := by decide
  have hcl2 : clampZ (-32768) 32767 (-16383) = -16383 := by decide
  rw [e1, htr1, hcl1] at hL
  rw [e2, htr2, hcl2] at hR
  exact ⟨hlt, hL, hR⟩

/-! ## Claims C2/C3: bank parser -/

/-- `find?` over `List.range n` returns the least index satisfying the
predicate, or `none` when no index below `n` does. -/
lemma find?_range_spec (n : ℕ) (p : ℕ → Bool) :
    ((List.range n).find? p = none ∧ ∀ i < n, p i = false) ∨
    (∃ j, (List.range n).find? p = some j ∧ j < n ∧ p j ∧ ∀ k < j, p k = false) := by
  induction n with
  | zero => exact Or.inl ⟨rfl, by omega⟩
  | succ n ih =>
    rw [List.range_succ]
    rcases ih with ⟨hnone, hall⟩ | ⟨j, hfind, hj, hpj, hmin⟩
    · rw [List.find?_append, hnone, Option.none_or]
      by_cases hp : p n
      · refine Or.inr ⟨n, ?_, by omega, hp, fun k hk => hall k hk⟩
        simp [hp]
      · refine Or.inl ⟨?_, ?_⟩
        · simp [hp]
        · intro i hi
          by_cases hin : i < n
          · exact hall i hin
          · have : i = n := by omega
            subst this
            simpa using hp
    · rw [List.find?_append, hfind]
      exact Or.inr ⟨j, rfl, by omega, hpj, hmin⟩

/-- `parseProgramsAux` never returns more records than its fuel. -/
lemma parseProgramsAux_length_le (s : List Char) (idx fuel : ℕ) :
    (parseProgramsAux s idx fuel).length ≤ fuel := by
  induction fuel generalizing s idx with
  | zero => simp [parseProgramsAux]
  | succ fuel ih =>
    unfold parseProgramsAux
    cases firstIdx s "<program ".data with
    | none => simp
    | some j =>
      simpa using ih (s.drop (j + 1)) (idx + 1)

/-- At most `MAX_PRESETS` records are parsed from a payload. -/
lemma parsePrograms_length_le (xml : List Char) :
    (parsePrograms xml).length ≤ MAX_PRESETS :=
  parseProgramsAux_length_le xml 0 MAX_PRESETS

/-- C3 (amended): an unopenable file, or a file in which the signature
occurs at no scanned offset (an offset followed by at least one more
byte), leaves the instance unchanged and reports failure; when the
signature does occur at such an offset, the loader locates its first
occurrence and replaces the preset table with the program records
parsed from there, at most 128 of them, returning their count. -/
theorem C3_bank_scan (inst : Instance) (data : List Char) (i : ℕ)
    (hmatch : "<?xml".data.isPrefixOf (data.drop i)) (hlen : i + 5 < data.length) :
    (∀ inst' : Instance, v2_load_bank inst' none = (inst', -1)) ∧
    (∀ (inst' : Instance) (d : List Char),
      (∀ k, k + 5 < d.length → ¬ "<?xml".data.isPrefixOf (d.drop k)) →
      v2_load_bank inst' (some d) = (inst', -1)) ∧
    (∃ j, j ≤ i ∧ "<?xml".data.isPrefixOf (data.drop j) ∧
      (∀ k < j, ¬ "<?xml".data.isPrefixOf (data.drop k)) ∧
      v2_load_bank inst (some data) =
        ({ inst with preset_count := (parsePrograms (data.drop j)).length,
                     presets := parsePrograms (data.drop j) },
         ((parsePrograms (data.drop j)).length : ℤ)) ∧
      (parsePrograms (data.drop j)).length ≤ MAX_PRESETS) := by
  refine ⟨fun _ => rfl, ?_, ?_⟩
  · intro inst' d hnone
    have hfind : findXmlSig d = none := by
      unfold findXmlSig
      rcases find?_range_spec (d.length - 5) (fun k => "<?xml".data.isPrefixOf (d.drop k))
        with ⟨h, _⟩ | ⟨j, _, hj, hpj, _⟩
      · exact h
      · exact absurd hpj (hnone j (by omega))
    simp [v2_load_bank, hfind]
  · rcases find?_range_spec (data.length - 5)
        (fun k => "<?xml".data.isPrefixOf (data.drop k))
      with ⟨_, hall⟩ | ⟨j, hfind, hj, hpj, hmin⟩
    · have h1 := hall i (by omega)
      rw [hmatch] at h1
      simp at h1
    · refine ⟨j, ?_, hpj, ?_, ?_, parsePrograms_length_le _⟩
      · by_contra hij
        have h1 := hmin i (by omega)
        rw [hmatch] at h1
        simp at h1
      · intro k hk hcontra
        have h1 := hmin k hk
        rw [hcontra] at h1
        simp at h1
      · have hsig : findXmlSig data = some j := hfind
        simp [v2_load_bank, hsig]

/-- C3 counterexample: the file consisting of exactly the five
signature bytes `<?xml` contains the signature at offset 0, yet the
loader reports failure (`-1`), because the scan loop `i < size - 5`
never examines that offset. -/
theorem C3_counterexample :
    "<?xml".data.isPrefixOf (("<?xml".data).drop 0) ∧
    v2_load_bank exInstance (some "<?xml".data) = (exInstance, -1) :=
  ⟨by decide, rfl⟩

/-- Witness for C3 on a bank whose signature is preceded by binary
junk. -/
theorem C3_witness :
    ("<?xml".data.isPrefixOf (("zz<?xml ok".data).drop 2) ∧ 2 + 5 < "zz<?xml ok".data.length) ∧
    ((∀ inst' : Instance, v2_load_bank inst' none = (inst', -1)) ∧
    (∀ (inst' : Instance) (d : List Char),
      (∀ k, k + 5 < d.length → ¬ "<?xml".data.isPrefixOf (d.drop k)) →
      v2_load_bank inst' (some d) = (inst', -1)) ∧
    (∃ j, j ≤ 2 ∧ "<?xml".data.isPrefixOf (("zz<?xml ok".data).drop j) ∧
      (∀ k < j, ¬ "<?xml".data.isPrefixOf (("zz<?xml ok".data).drop k)) ∧
      v2_load_bank exInstance (some "zz<?xml ok".data) =
        ({ exInstance with
            preset_count := (parsePrograms (("zz<?xml ok".data).drop j)).length,
            presets := parsePrograms (("zz<?xml ok".data).drop j) },
         ((parsePrograms (("zz<?xml ok".data).drop j)).length : ℤ)) ∧
      (parsePrograms (("zz<?xml ok".data).drop j)).length ≤ MAX_PRESETS)) :=
  ⟨⟨by decide, by decide⟩,
    C3_bank_scan exInstance "zz<?xml ok".data 2 (by decide) (by decide)⟩

/-- Invariants of the sequential probe fold: every found index below
the bound is populated with its parsed value and lies below the count;
the count is one past a found index (or zero, in which case nothing was
found); the count never exceeds the bound. -/
lemma probeFold_spec (g : ℕ → Option (List Char)) (n : ℕ) :
    (∀ i, i < n → ∀ v, g i = some v →
      (probeFold g n).2 > i ∧ (probeFold g n).1 i = parse_float v) ∧
    (∀ i, (probeFold g n).2 = i + 1 → i < n ∧ (g i).isSome) ∧
    ((probeFold g n).2 = 0 → ∀ i < n, g i = none) ∧
    (probeFold g n).2 ≤ n := by
  induction n with
  | zero =>
    refine ⟨by omega, ?_, by omega, by simp [probeFold]⟩
    intro i hi
    simp [probeFold] at hi
  | succ n ih =>
    have hstep : probeFold g (n + 1) =
        (match g n with
         | some v => (fun j => if j = n then parse_float v else (probeFold g n).1 j, n + 1)
         | none => probeFold g n) := by
      unfold probeFold
      rw [List.range_succ, List.foldl_append]
      rfl
    rcases ih with ⟨ih1, ih2, ih3, ih4⟩
    cases hg : g n with
    | some v =>
      rw [hstep, hg]
      dsimp only
      refine ⟨?_, ?_, ?_, le_refl _⟩
      · intro i hi w hw
        by_cases hin : i = n
        · subst hin
          rw [hg] at hw
          injection hw with hw
          subst hw
          exact ⟨by omega, by simp⟩
        · have hi' : i < n := by omega
          rcases ih1 i hi' w hw with ⟨hc, hv⟩
          exact ⟨by omega, by simp [hin, hv]⟩
      · intro i hi
        have : i = n := by omega
        subst this
        exact ⟨by omega, by simp [hg]⟩
      · intro h0
        omega
    | none =>
      rw [hstep, hg]
      dsimp only
      refine ⟨?_, ?_, ?_, by omega⟩
      · intro i hi w hw
        by_cases hin : i = n
        · subst hin
          rw [hg] at hw
          cases hw
        · exact ih1 i (by omega) w hw
      · intro i hi
        rcases ih2 i hi with ⟨h1, h2⟩
        exact ⟨by omega, h2⟩
      · intro h0 i hi
        by_cases hin : i = n
        · subst hin
          exact hg
        · exact ih3 h0 i (by omega)

/-- C2 (amended): for a record parsed from an element start,
`populated_count` equals one past the highest index `i < 100` for which
the search-based probe finds `Val_i=\"...\"` at or after the element
start (the search runs to the end of the document, not the element's
end), each found `Val_i` is parsed as a float into `values[i]`, and a
missing `Val_i` merely leaves `populated_count` smaller (count zero
exactly when no probe succeeds; never an error). -/
theorem C2_populated_count (xml : List Char) (idx : ℕ) :
    (∀ i, i < MAX_PARAMS → ∀ v, find_attr xml ("Val_" ++ toString i) = some v →
      (parseProgram xml idx).param_count > i ∧
      (parseProgram xml idx).params i = parse_float v) ∧
    (∀ i, (parseProgram xml idx).param_count = i + 1 →
      i < MAX_PARAMS ∧ (find_attr xml ("Val_" ++ toString i)).isSome) ∧
    ((parseProgram xml idx).param_count = 0 →
      ∀ i < MAX_PARAMS, find_attr xml ("Val_" ++ toString i) = none) ∧
    (parseProgram xml idx).param_count ≤ MAX_PARAMS := by
  have h := probeFold_spec (fun i => find_attr xml ("Val_" ++ toString i)) MAX_PARAMS
  exact h

/-- Witness for C2 on a concrete single-program payload. -/
theorem C2_witness :
    ((0 : ℕ) < MAX_PARAMS ∧
      find_attr "<program Val_0=\"0.25\"/>".data ("Val_" ++ toString 0) =
        some "0.25".data) ∧
    ((parseProgram "<program Val_0=\"0.25\"/>".data 0).param_count > 0 ∧
      (parseProgram "<program Val_0=\"0.25\"/>".data 0).params 0 =
        parse_float "0.25".data) :=
  ⟨⟨by decide, by decide⟩,
    (C2_populated_count "<program Val_0=\"0.25\"/>".data 0).1 0 (by decide)
      "0.25".data (by decide)⟩

/-- C2 counterexample: no `Val_0` attribute occurs anywhere in the
first element of `c2doc` (so the claimed populated_count of its record
is 0), yet the parser assigns it `param_count = 1`, because the probe
search runs past the element's end and finds the second element's
`Val_0`. -/
theorem C2_counterexample :
    (parsePrograms c2doc).map Preset.param_count = [1, 1] ∧
    firstIdx c2elem0 ("Val_0=\"".data) = none ∧
    find_attr c2elem0 "Val_0" = none := by
  refine ⟨?_, by decide, by decide⟩
  decide

/-! ## Claim C4: shadow-table set/get -/

/-- Facts about every shadow-table entry needed to route `set`/`get`
through the table branch: its key collides with no meta key and no
`param_` prefix, its slot is in range and is a named case of the
`v2_apply_param_direct` switch, and a first-match key lookup returns
the entry itself (keys are unique). -/
lemma shadow_key_props : ∀ d ∈ g_shadow_params,
    d.key ≠ "state" ∧ d.key ≠ "preset" ∧ d.key ≠ "preset_count" ∧
    d.key ≠ "preset_name" ∧ d.key ≠ "name" ∧ d.key ≠ "octave_transpose" ∧
    d.key ≠ "param_bank" ∧ "param_".data.isPrefixOf d.key.data = false ∧
    "param_name_".data.isPrefixOf d.key.data = false ∧
    d.key ≠ "ui_hierarchy" ∧ d.key ≠ "chain_params" ∧
    d.index ∈ directSlots ∧ d.index < PARAM_COUNT ∧
    g_shadow_params.find? (fun x => x.key = d.key) = some d := by decide

/-- C4: setting a shadow key parses the raw string as a float, clamps
it into the descriptor's `[min, max]`, stores it at the descriptor's
engine slot, forwards exactly one engine call for that slot, and a
subsequent get returns the clamped value formatted `%d`-style (the
stored value truncated toward zero) for INT keys and with exactly
three decimals (`%.3f`) for FLOAT keys. -/
theorem C4_shadow_set_get (inst : Instance) (d : ParamDef)
    (hd : d ∈ g_shadow_params) (val : String) :
    (v2_set_param inst d.key val).1.params d.index =
      clampQ d.min_val d.max_val (parse_float_s val) ∧
    (v2_set_param inst d.key val).2 =
      [EngineCall.setSlot d.index (clampQ d.min_val d.max_val (parse_float_s val))] ∧
    d.min_val ≤ clampQ d.min_val d.max_val (parse_float_s val) ∧
    clampQ d.min_val d.max_val (parse_float_s val) ≤ d.max_val ∧
    v2_get_param (v2_set_param inst d.key val).1 d.key =
      some (String.mk (if d.type = .INT then
        fmt_int (truncQ (clampQ d.min_val d.max_val (parse_float_s val)))
      else
        fmt_fixed 3 (clampQ d.min_val d.max_val (parse_float_s val)))) := by
  obtain ⟨h1, h2, h3, h4, h5, h6, h7, h8, h9, h10, h11, hdir, hlt, hfind⟩ :=
    shadow_key_props d hd
  have hminmax : d.min_val ≤ d.max_val := by
    fin_cases hd <;> norm_num
  have hguard : ¬((d.index : ℤ) < 0 ∨ (d.index : ℤ) ≥ (PARAM_COUNT : ℤ)) := by
    push_neg
    constructor
    · positivity
    · exact_mod_cast hlt
  have htoNat : ((d.index : ℤ)).toNat = d.index := Int.toNat_natCast d.index
  have hset : v2_set_param inst d.key val =
      ({ inst with params := fun j =>
          if j = d.index then clampQ d.min_val d.max_val (parse_float_s val)
          else inst.params j },
        [EngineCall.setSlot d.index (clampQ d.min_val d.max_val (parse_float_s val))]) := by
    simp only [v2_set_param, if_neg h1, if_neg h2, if_neg h6, if_neg h7, h8,
      Bool.false_eq_true, if_false, hfind]
    simp only [v2_apply_param_direct, if_neg hguard, htoNat, hdir, if_pos]
  rw [hset]
  refine ⟨by simp, rfl, (clampQ_mem _ _ _ hminmax).1, (clampQ_mem _ _ _ hminmax).2, ?_⟩
  simp only [v2_get_param, if_neg h2, if_neg h3, if_neg h4, if_neg h5, if_neg h6,
    if_neg h7]
  rw [if_neg, if_neg]
  · have hhelper : param_helper_get g_shadow_params
        (fun j => if j = d.index then clampQ d.min_val d.max_val (parse_float_s val)
          else inst.params j) d.key =
        some (String.mk (if d.type = .INT then
          fmt_int (truncQ (clampQ d.min_val d.max_val (parse_float_s val)))
        else
          fmt_fixed 3 (clampQ d.min_val d.max_val (parse_float_s val)))) := by
      unfold param_helper_get
      rw [hfind]
      by_cases ht : d.type = .INT <;> simp [ht]
    rw [hhelper]
  · intro hcontra
    rw [h8] at hcontra
    simp at hcontra
  · intro hcontra
    rw [h9] at hcontra
    simp at hcontra

/-- Witness for C4 at the `cutoff` descriptor and raw value "0.9". -/
theorem C4_witness :
    ((⟨"cutoff", "Cutoff", .FLOAT, CUTOFF, 0, 1⟩ : ParamDef) ∈ g_shadow_params) ∧
    ((v2_set_param exInstance "cutoff" "0.9").1.params CUTOFF =
      clampQ 0 1 (parse_float_s "0.9") ∧
    (v2_set_param exInstance "cutoff" "0.9").2 =
      [EngineCall.setSlot CUTOFF (clampQ 0 1 (parse_float_s "0.9"))] ∧
    (0 : ℚ) ≤ clampQ 0 1 (parse_float_s "0.9") ∧
    clampQ 0 1 (parse_float_s "0.9") ≤ 1 ∧
    v2_get_param (v2_set_param exInstance "cutoff" "0.9").1 "cutoff" =
      some (String.mk (if (ParamType.FLOAT = ParamType.INT) then
        fmt_int (truncQ (clampQ 0 1 (parse_float_s "0.9")))
      else
        fmt_fixed 3 (clampQ 0 1 (parse_float_s "0.9"))))) :=
  ⟨by decide,
    C4_shadow_set_get exInstance ⟨"cutoff", "Cutoff", .FLOAT, CUTOFF, 0, 1⟩ (by decide) "0.9"⟩

/-! ## Claim C5: shadow/engine consistency invariant -/

/-- Splitting a call trace. -/
lemma applyCalls_append (m : EngineMap) (a b : List EngineCall) :
    applyCalls m (a ++ b) = applyCalls (applyCalls m a) b :=
  List.foldl_append ..

/-- Every descriptor slot is a named case of the direct dispatch, a
member of the preset push list, and within the vector. -/
lemma shadow_slots_facts : ∀ d ∈ g_shadow_params,
    d.index ∈ directSlots ∧ d.index ∈ applyPresetSlots ∧ d.index < PARAM_COUNT := by
  decide

/-- The invariant only reads the parameter vector. -/
lemma ShadowConsistent_congr (inst inst' : Instance) (m : EngineMap)
    (hp : inst'.params = inst.params) (h : ShadowConsistent inst m) :
    ShadowConsistent inst' m := by
  intro d hd v hv
  rw [hp]
  exact h d hd v hv

/-- The direct ParamsEnum dispatch preserves the invariant: the slot it
writes is exactly the slot it pushes (or, for a slot that is not a
switch case, a slot no descriptor references). -/
lemma ShadowConsistent_apply_param_direct (inst : Instance) (m : EngineMap)
    (slot : ℤ) (value : ℚ) (h : ShadowConsistent inst m) :
    ShadowConsistent (v2_apply_param_direct inst slot value).1
      (applyCalls m (v2_apply_param_direct inst slot value).2) := by
  unfold v2_apply_param_direct
  by_cases hg : slot < 0 ∨ slot ≥ (PARAM_COUNT : ℤ)
  · simpa [hg, applyCalls] using h
  · simp only [if_neg hg]
    by_cases hs : slot.toNat ∈ directSlots
    · simp only [if_pos hs]
      intro d hd v hv
      simp only [applyCalls, List.foldl, applyCall] at hv
      by_cases hds : d.index = slot.toNat
      · rw [if_pos hds] at hv
        injection hv with hv
        simp [hds, hv.symm]
      · rw [if_neg hds] at hv
        simpa [hds] using h d hd v hv
    · simp only [if_neg hs]
      intro d hd v hv
      simp only [applyCalls, List.foldl] at hv
      have hmem := (shadow_slots_facts d hd).1
      have hds : d.index ≠ slot.toNat := fun hEq => hs (hEq ▸ hmem)
      simpa [hds] using h d hd v hv

/-- Preset application preserves the invariant: every descriptor slot
written by the copy loop is also pushed (its guard is the same
`populated_count` comparison), and untouched slots stay paired. -/
lemma ShadowConsistent_apply_preset (inst : Instance) (m : EngineMap)
    (idx : ℤ) (h : ShadowConsistent inst m) :
    ShadowConsistent (v2_apply_preset inst idx).1
      (applyCalls m (v2_apply_preset inst idx).2) := by
  by_cases hg : idx < 0 ∨ idx ≥ (inst.preset_count : ℤ)
  · simpa [v2_apply_preset, hg, applyCalls] using h
  · have h0 : 0 ≤ idx := by omega
    have h1 : idx < (inst.preset_count : ℤ) := by omega
    cases hp : inst.presets.get? idx.toNat with
    | none =>
      have hp' : inst.presets[idx.toNat]? = none := by
        rw [← List.get?_eq_getElem?]
        exact hp
      simpa [v2_apply_preset, hg, hp', applyCalls] using h
    | some p =>
      intro d hd v hv
      rw [apply_preset_calls inst idx p h0 h1 hp,
        applyCalls_filterMap _ applyPresetSlots_nodup] at hv
      rw [apply_preset_fst inst idx p h0 h1 hp]
      obtain ⟨_, hpre, hlt⟩ := shadow_slots_facts d hd
      by_cases hc : p.param_count > d.index
      · rw [if_pos ⟨hpre, hc⟩] at hv
        injection hv with hv
        simp only []
        rw [if_pos ⟨hc, hlt⟩]
        exact hv.symm ▸ rfl
      · rw [if_neg (by tauto)] at hv
        have hcopy : ¬(d.index < p.param_count ∧ d.index < PARAM_COUNT) := by omega
        simp only []
        rw [if_neg hcopy]
        exact h d hd v hv

/-- MIDI handling touches neither the parameter vector nor any engine
parameter slot. -/
lemma ShadowConsistent_on_midi (inst : Instance) (m : EngineMap)
    (msg : List ℕ) (len : ℤ) (src : ℤ) (h : ShadowConsistent inst m) :
    ShadowConsistent (v2_on_midi inst msg len src).1
      (applyCalls m (v2_on_midi inst msg len src).2) := by
  unfold v2_on_midi
  by_cases hl : len < 2
  · simpa [hl, applyCalls] using h
  · simp only [if_neg hl]
    split_ifs <;> simpa [applyCalls, applyCall] using h

/-- The shadow-restore fold of `restoreState` preserves the
invariant. -/
lemma ShadowConsistent_restore_fold (val : String) (L : List ParamDef)
    (start : Instance × List EngineCall) (m : EngineMap)
    (h : ShadowConsistent start.1 (applyCalls m start.2)) :
    ShadowConsistent
      (L.foldl (fun acc d =>
        match json_get_number val d.key with
        | some f =>
          let r := v2_apply_param_direct acc.1 d.index (clampQ d.min_val d.max_val f)
          (r.1, acc.2 ++ r.2)
        | none => acc) start).1
      (applyCalls m
        (L.foldl (fun acc d =>
          match json_get_number val d.key with
          | some f =>
            let r := v2_apply_param_direct acc.1 d.index (clampQ d.min_val d.max_val f)
            (r.1, acc.2 ++ r.2)
          | none => acc) start).2) := by
  induction L generalizing start with
  | nil => exact h
  | cons d L ih =>
    simp only [List.foldl_cons]
    cases hjson : json_get_number val d.key with
    | none =>
      exact ih start h
    | some f =>
      refine ih _ ?_
      simp only []
      rw [applyCalls_append]
      exact ShadowConsistent_apply_param_direct start.1 (applyCalls m start.2) _ _ h

/-- `restoreState` preserves the invariant: the preset restore runs
first through `v2_apply_preset`, the octave restore touches no slot,
and the shadow restore runs through the direct dispatch. -/
lemma ShadowConsistent_restore (inst : Instance) (m : EngineMap) (val : String)
    (h : ShadowConsistent inst m) :
    ShadowConsistent (restoreState inst val).1
      (applyCalls m (restoreState inst val).2) := by
  unfold restoreState
  have hstep1 : ∀ r : Instance × List EngineCall,
      r = (match json_get_number val "preset" with
        | some f =>
          let idx := truncQ f
          if 0 ≤ idx ∧ idx < (inst.preset_count : ℤ) then
            v2_apply_preset { inst with current_preset := idx } idx
          else (inst, [])
        | none => (inst, [])) →
      ShadowConsistent r.1 (applyCalls m r.2) := by
    intro r hr
    cases hjson : json_get_number val "preset" with
    | none =>
      rw [hjson] at hr
      subst hr
      exact h
    | some f =>
      rw [hjson] at hr
      by_cases hrange : 0 ≤ truncQ f ∧ truncQ f < (inst.preset_count : ℤ)
      · simp only [if_pos hrange] at hr
        subst hr
        exact ShadowConsistent_apply_preset _ m _
          (ShadowConsistent_congr inst _ m rfl h)
      · simp only [if_neg hrange] at hr
        subst hr
        exact h
  cases hjson : json_get_number val "preset" with
  | none =>
    have h1 := hstep1 _ (by rw [hjson])
    cases hjson2 : json_get_number val "octave_transpose" with
    | none =>
      exact ShadowConsistent_restore_fold val g_shadow_params _ m h1
    | some f =>
      refine ShadowConsistent_restore_fold val g_shadow_params _ m ?_
      exact ShadowConsistent_congr _ _ _ rfl h1
  | some f =>
    have h1 := hstep1 _ (by rw [hjson])
    cases hjson2 : json_get_number val "octave_transpose" with
    | none =>
      exact ShadowConsistent_restore_fold val g_shadow_params _ m h1
    | some g =>
      refine ShadowConsistent_restore_fold val g_shadow_params _ m ?_
      exact ShadowConsistent_congr _ _ _ rfl h1

/-- C5 (amended): the shadow/engine consistency invariant is preserved
by every operation except the narrow-surface `param_<0..7>` bank
dispatch: by `set_param` through any key that is not a `param_`-prefixed
key other than `param_bank` (meta keys, `state` restore, shadow keys,
unknown keys), by preset application, by the direct ParamsEnum
dispatch, and by MIDI handling.  (The excluded narrow-surface dispatch
violates the invariant; see the counterexample.) -/
theorem C5_no_stale_shadow (inst : Instance) (m : EngineMap)
    (h : ShadowConsistent inst m) :
    (∀ key val, ("param_".data.isPrefixOf key.data = false ∨ key = "param_bank") →
      ShadowConsistent (v2_set_param inst key val).1
        (applyCalls m (v2_set_param inst key val).2)) ∧
    (∀ idx, ShadowConsistent (v2_apply_preset inst idx).1
        (applyCalls m (v2_apply_preset inst idx).2)) ∧
    (∀ slot value, ShadowConsistent (v2_apply_param_direct inst slot value).1
        (applyCalls m (v2_apply_param_direct inst slot value).2)) ∧
    (∀ msg len src, ShadowConsistent (v2_on_midi inst msg len src).1
        (applyCalls m (v2_on_midi inst msg len src).2)) := by
  refine ⟨?_, fun idx => ShadowConsistent_apply_preset inst m idx h,
    fun slot value => ShadowConsistent_apply_param_direct inst m slot value h,
    fun msg len src => ShadowConsistent_on_midi inst m msg len src h⟩
  intro key val hkey
  by_cases h1 : key = "state"
  · subst h1
    simp only [v2_set_param, if_pos rfl]
    exact ShadowConsistent_restore inst m val h
  by_cases h2 : key = "preset"
  · subst h2
    simp only [v2_set_param, if_neg h1, if_pos rfl]
    by_cases hr : 0 ≤ parse_int_s val ∧ parse_int_s val < (inst.preset_count : ℤ)
    · simp only [if_pos hr]
      exact ShadowConsistent_apply_preset _ m _ (ShadowConsistent_congr inst _ m rfl h)
    · simpa [hr, applyCalls] using h
  by_cases h3 : key = "octave_transpose"
  · subst h3
    simp only [v2_set_param, if_neg h1, if_neg h2, if_pos rfl]
    simpa [applyCalls] using ShadowConsistent_congr inst _ m rfl h
  by_cases h4 : key = "param_bank"
  · subst h4
    simp only [v2_set_param, if_neg h1, if_neg h2, if_neg h3, if_pos rfl]
    simpa [applyCalls] using ShadowConsistent_congr inst _ m rfl h
  have h5 : "param_".data.isPrefixOf key.data = false := by
    rcases hkey with h | h
    · exact h
    · exact absurd h h4
  simp only [v2_set_param, if_neg h1, if_neg h2, if_neg h3, if_neg h4, h5,
    Bool.false_eq_true, if_false]
  cases hfind : g_shadow_params.find? (fun d => d.key = key) with
  | none => simpa [applyCalls] using h
  | some d => exact ShadowConsistent_apply_param_direct inst m _ _ h

/-- C5 counterexample: from a state satisfying the invariant (no value
ever pushed), the narrow-surface call `set_param("param_2", "0.7")` on
bank 1 pushes `processOsc1Mix(0.7)` (slot 40) but stores 0.7 at vector
slot `bank*8+idx = 10`, leaving the descriptor-referenced slot 40 stale
at 0: the invariant is violated, so the claim fails for the
`param_<0..7>` dispatch. -/
theorem C5_counterexample :
    ShadowConsistent c5inst (fun _ => none) ∧
    ¬ ShadowConsistent (v2_set_param c5inst "param_2" "0.7").1
        (applyCalls (fun _ => none) (v2_set_param c5inst "param_2" "0.7").2) := by
  constructor
  · intro d _ v hv
    exact Option.noConfusion hv
  · intro hInv
    have hd : c5osc1mix ∈ g_shadow_params := by decide
    have hv : parse_float_s "0.7" = 7 / 10 := by
      simp [parse_float_s, parse_float, parse_unsigned, fracDigits, digitsToNat,
        digitVal, isDigitChar, List.dropWhile, List.takeWhile]
    have hset : v2_set_param c5inst "param_2" "0.7" =
        v2_apply_param c5inst c5inst.param_bank
          (parse_int ("param_2".data.drop 6)).toNat (parse_float_s "0.7") := by
      simp only [v2_set_param]
      rw [if_neg (by decide), if_neg (by decide), if_neg (by decide),
        if_neg (by decide),
        if_pos (by decide : ("param_".data.isPrefixOf "param_2".data) = true),
        if_pos (by decide : (0 : ℤ) ≤ parse_int ("param_2".data.drop 6) ∧
          parse_int ("param_2".data.drop 6) < 8)]
    have hbank : c5inst.param_bank = 1 := rfl
    have hidx : (parse_int ("param_2".data.drop 6)).toNat = 2 := by decide
    have hm : applyCalls (fun _ => none) (v2_set_param c5inst "param_2" "0.7").2
        c5osc1mix.index = some (parse_float_s "0.7") := by
      rw [hset, hbank, hidx]
      simp only [v2_apply_param]
      simp [bankCalls, applyCalls, applyCall, c5osc1mix, OSC1MIX, OSC2MIX]
    have hp : (v2_set_param c5inst "param_2" "0.7").1.params c5osc1mix.index = 0 := by
      rw [hset, hbank, hidx]
      simp only [v2_apply_param]
      have h10 : ((1 : ℤ) * 8 + ((2 : ℕ) : ℤ)).toNat = 10 := by decide
      simp [h10, c5osc1mix, OSC1MIX, c5inst]
    have hstale := hInv c5osc1mix hd (parse_float_s "0.7") hm
    rw [hp, hv] at hstale
    norm_num at hstale

/-- Witness for C5 from the vacuously consistent fresh engine state. -/
theorem C5_witness :
    ShadowConsistent exInstance (fun _ => none) ∧
    ((∀ key val, ("param_".data.isPrefixOf key.data = false ∨ key = "param_bank") →
      ShadowConsistent (v2_set_param exInstance key val).1
        (applyCalls (fun _ => none) (v2_set_param exInstance key val).2)) ∧
    (∀ idx, ShadowConsistent (v2_apply_preset exInstance idx).1
        (applyCalls (fun _ => none) (v2_apply_preset exInstance idx).2)) ∧
    (∀ slot value, ShadowConsistent (v2_apply_param_direct exInstance slot value).1
        (applyCalls (fun _ => none) (v2_apply_param_direct exInstance slot value).2)) ∧
    (∀ msg len src, ShadowConsistent (v2_on_midi exInstance msg len src).1
        (applyCalls (fun _ => none) (v2_on_midi exInstance msg len src).2))) :=
  ⟨fun _ _ _ hv => Option.noConfusion hv,
    C5_no_stale_shadow exInstance (fun _ => none)
      (fun _ _ _ hv => Option.noConfusion hv)⟩

/-! ## Claim C9: digit-string and formatting lemmas -/

/-- Digit characters are digits. -/
lemma isDigitChar_digitChar (d : ℕ) (h : d < 10) : isDigitChar (digitChar d) = true := by
  interval_cases d <;> decide

/-- `natDigits` is never empty. -/
lemma natDigits_ne_nil (n : ℕ) : natDigits n ≠ [] := by
  rw [natDigits_eq]
  split <;> simp

/-- Every character of `natDigits` is a digit. -/
lemma natDigits_digits (n : ℕ) : ∀ c ∈ natDigits n, isDigitChar c = true := by
  induction n using Nat.strong_induction_on with
  | _ n ih =>
    rw [natDigits_eq]
    by_cases h10 : n < 10
    · simpa [h10] using isDigitChar_digitChar n h10
    · have hdiv : n / 10 < n := Nat.div_lt_self (by omega) (by omega)
      simp only [if_neg h10]
      intro c hc
      rcases List.mem_append.mp hc with hc | hc
      · exact ih (n / 10) hdiv c hc
      · rcases List.mem_singleton.mp hc with rfl
        exact isDigitChar_digitChar _ (Nat.mod_lt _ (by omega))

/-- Value of a digit character. -/
lemma digitVal_digitChar (d : ℕ) (h : d < 10) : digitVal (digitChar d) = d := by
  interval_cases d <;> decide

/-- `digitsToNat` over an appended digit. -/
lemma digitsToNat_append (a : List Char) (c : Char) :
    digitsToNat (a ++ [c]) = 10 * digitsToNat a + digitVal c := by
  simp [digitsToNat, List.foldl_append]

/-- Reading back the digits of `n` gives `n`. -/
lemma digitsToNat_natDigits (n : ℕ) : digitsToNat (natDigits n) = n := by
  induction n using Nat.strong_induction_on with
  | _ n ih =>
    rw [natDigits_eq]
    by_cases h10 : n < 10
    · simp [h10, digitsToNat, digitVal_digitChar n h10]
    · have hdiv : n / 10 < n := Nat.div_lt_self (by omega) (by omega)
      rw [if_neg h10, digitsToNat_append, ih (n / 10) hdiv,
        digitVal_digitChar _ (Nat.mod_lt _ (by omega))]
      omega

/-- A number below `10 ^ k` has at most `k` digits (for positive `k`). -/
lemma natDigits_length_le (n k : ℕ) (hk : 0 < k) (h : n < 10 ^ k) :
    (natDigits n).length ≤ k := by
  induction n using Nat.strong_induction_on generalizing k with
  | _ n ih =>
    rw [natDigits_eq]
    by_cases h10 : n < 10
    · rw [if_pos h10]
      simpa using hk
    · have hdiv : n / 10 < n := Nat.div_lt_self (by omega) (by omega)
      have hk2 : 2 ≤ k := by
        rcases Nat.lt_or_ge k 2 with hcon | hcon
        · have hk1 : k = 1 := by omega
          subst hk1
          simp at h
          omega
        · exact hcon
      have hn10 : n / 10 < 10 ^ (k - 1) := by
        have h1 : 10 ^ k = 10 ^ (k - 1) * 10 := by
          rw [← pow_succ]
          congr 1
          omega
        rw [h1] at h
        omega
      have := ih (n / 10) hdiv (k - 1) (by omega) hn10
      rw [if_neg h10]
      simp only [List.length_append, List.length_singleton]
      omega

/-- `digitsToNat` ignores leading zeros. -/
lemma digitsToNat_replicate_zero (m : ℕ) (ds : List Char) :
    digitsToNat (List.replicate m '0' ++ ds) = digitsToNat ds := by
  induction m with
  | zero => simp
  | succ m ih =>
    have : List.replicate (m + 1) '0' ++ ds = '0' :: (List.replicate m '0' ++ ds) := by
      simp [List.replicate_succ]
    rw [this]
    show List.foldl _ (10 * 0 + digitVal '0') _ = _
    have h0 : 10 * 0 + digitVal '0' = 0 := by decide
    rw [h0]
    exact ih

/-- `padZeros` preserves the digit value. -/
lemma digitsToNat_padZeros (w : ℕ) (ds : List Char) :
    digitsToNat (padZeros w ds) = digitsToNat ds :=
  digitsToNat_replicate_zero _ _

/-- `padZeros` yields exactly width `w` when the input is short. -/
lemma padZeros_length (w : ℕ) (ds : List Char) (h : ds.length ≤ w) :
    (padZeros w ds).length = w := by
  simp [padZeros]
  omega

/-- Every character of a padded digit string is a digit. -/
lemma padZeros_digits (w : ℕ) (ds : List Char)
    (h : ∀ c ∈ ds, isDigitChar c = true) :
    ∀ c ∈ padZeros w ds, isDigitChar c = true := by
  intro c hc
  rcases List.mem_append.mp hc with hc | hc
  · rcases List.eq_of_mem_replicate hc with rfl
    decide
  · exact h c hc

/-- `takeWhile` over a digit block followed by a non-digit. -/
lemma takeWhile_digits_append (ds rest : List Char)
    (hds : ∀ c ∈ ds, isDigitChar c = true)
    (hrest : ∀ c, rest.head? = some c → isDigitChar c = false) :
    (ds ++ rest).takeWhile isDigitChar = ds := by
  induction ds with
  | nil =>
    cases rest with
    | nil => rfl
    | cons c t =>
      simp [List.takeWhile_cons, hrest c rfl]
  | cons c ds ih =>
    have hc : isDigitChar c = true := hds c (by simp)
    simp only [List.cons_append, List.takeWhile_cons, hc, if_true]
    simp only [ih (fun x hx => hds x (by simp [hx]))]

/-- A digit character is none of the delimiter characters. -/
lemma digit_not_special (c : Char) (h : isDigitChar c = true) :
    c ≠ ' ' ∧ c ≠ '-' ∧ c ≠ '+' ∧ c ≠ '.' ∧ c ≠ '"' ∧ c ≠ ',' ∧ c ≠ ':' := by
  refine ⟨?_, ?_, ?_, ?_, ?_, ?_, ?_⟩
  all_goals
    intro hEq
    subst hEq
    revert h
    decide

/-- Dropping spaces is the identity on a list with a non-space head. -/
lemma dropWhile_space_cons (c : Char) (l : List Char) (h : c ≠ ' ') :
    (c :: l).dropWhile (fun x => x = ' ') = c :: l := by
  rw [List.dropWhile_cons, if_neg (by simp [h])]

/-- Evaluation of `parse_unsigned` on a digit block with a decimal
point, followed by a stop character. -/
lemma parse_unsigned_eval_dot (ds fs rest : List Char)
    (hds : ∀ c ∈ ds, isDigitChar c = true)
    (hfs : ∀ c ∈ fs, isDigitChar c = true) (hstop : StopChar rest) :
    parse_unsigned (ds ++ '.' :: (fs ++ rest)) =
      (digitsToNat ds : ℚ) + (digitsToNat fs : ℚ) / (10 ^ fs.length : ℕ) := by
  have htake : (ds ++ '.' :: (fs ++ rest)).takeWhile isDigitChar = ds := by
    refine takeWhile_digits_append ds _ hds ?_
    intro x hx
    simp only [List.head?_cons, Option.some_inj] at hx
    subst hx
    decide
  have hdrop : (ds ++ '.' :: (fs ++ rest)).drop ds.length = '.' :: (fs ++ rest) :=
    List.drop_left ds _
  have htakefs : (fs ++ rest).takeWhile isDigitChar = fs := by
    refine takeWhile_digits_append fs rest hfs ?_
    intro x hx
    exact (hstop x hx).1
  have hfrac : fracDigits ('.' :: (fs ++ rest)) = fs := by
    simp only [fracDigits, List.head?_cons, Option.some_inj, if_pos rfl, List.tail_cons]
    exact htakefs
  unfold parse_unsigned
  rw [htake, hdrop, hfrac]

/-- Evaluation of `parse_unsigned` on a digit block directly followed
by a stop character. -/
lemma parse_unsigned_eval_int (ds rest : List Char)
    (hds : ∀ c ∈ ds, isDigitChar c = true) (hstop : StopChar rest) :
    parse_unsigned (ds ++ rest) = (digitsToNat ds : ℚ) := by
  have htake : (ds ++ rest).takeWhile isDigitChar = ds := by
    refine takeWhile_digits_append ds rest hds ?_
    intro x hx
    exact (hstop x hx).1
  have hdrop : (ds ++ rest).drop ds.length = rest := List.drop_left ds rest
  have hfrac : fracDigits rest = [] := by
    unfold fracDigits
    cases hx : rest.head? with
    | none => simp
    | some c =>
      rw [if_neg]
      intro hcon
      exact (hstop c hx).2 (Option.some_inj.mp hcon)
  unfold parse_unsigned
  rw [htake, hdrop, hfrac]
  simp [digitsToNat]

/-- Evaluation of `parse_float` on an optionally negated numeral with
fraction part, followed by a stop character. -/
lemma parse_float_eval_dot (neg : Bool) (ds fs rest : List Char)
    (hds : ∀ c ∈ ds, isDigitChar c = true) (hne : ds ≠ [])
    (hfs : ∀ c ∈ fs, isDigitChar c = true) (hstop : StopChar rest) :
    parse_float ((if neg then ['-'] else []) ++ ds ++ '.' :: (fs ++ rest)) =
      (if neg then -1 else 1) *
        ((digitsToNat ds : ℚ) + (digitsToNat fs : ℚ) / (10 ^ fs.length : ℕ)) := by
  rcases List.exists_cons_of_ne_nil hne with ⟨c, t, hct⟩
  have hc : isDigitChar c = true := hds c (by rw [hct]; simp)
  obtain ⟨hsp, hminus, hplus, -, -, -, -⟩ := digit_not_special c hc
  have hcons : ds ++ '.' :: (fs ++ rest) = c :: (t ++ '.' :: (fs ++ rest)) := by
    rw [hct, List.cons_append]
  cases neg with
  | false =>
    simp only [Bool.false_eq_true, if_false, List.nil_append, one_mul]
    unfold parse_float
    rw [hcons, dropWhile_space_cons c _ hsp]
    rw [if_neg (by simp [hminus]), if_neg (by simp [hplus]), ← hcons]
    exact parse_unsigned_eval_dot ds fs rest hds hfs hstop
  | true =>
    have hl : (if (true : Bool) then ['-'] else ([] : List Char)) ++
        (ds ++ '.' :: (fs ++ rest)) = '-' :: (ds ++ '.' :: (fs ++ rest)) := by
      simp
    rw [show ((if (true : Bool) then ['-'] else ([] : List Char)) ++ ds ++ '.' :: (fs ++ rest)) =
      (if (true : Bool) then ['-'] else ([] : List Char)) ++ (ds ++ '.' :: (fs ++ rest)) from by
        rw [List.append_assoc], hl]
    unfold parse_float
    rw [dropWhile_space_cons '-' _ (by decide)]
    rw [if_pos (by simp), List.tail_cons]
    rw [parse_unsigned_eval_dot ds fs rest hds hfs hstop]
    simp

/-- Evaluation of `parse_float` on an optionally negated integer
numeral followed by a stop character. -/
lemma parse_float_eval_int (neg : Bool) (ds rest : List Char)
    (hds : ∀ c ∈ ds, isDigitChar c = true) (hne : ds ≠ [])
    (hstop : StopChar rest) :
    parse_float ((if neg then ['-'] else []) ++ ds ++ rest) =
      (if neg then -1 else 1) * (digitsToNat ds : ℚ) := by
  rcases List.exists_cons_of_ne_nil hne with ⟨c, t, hct⟩
  have hc : isDigitChar c = true := hds c (by rw [hct]; simp)
  obtain ⟨hsp, hminus, hplus, -, -, -, -⟩ := digit_not_special c hc
  have hcons : ds ++ rest = c :: (t ++ rest) := by
    rw [hct, List.cons_append]
  cases neg with
  | false =>
    simp only [Bool.false_eq_true, if_false, List.nil_append, one_mul]
    unfold parse_float
    rw [hcons, dropWhile_space_cons c _ hsp]
    rw [if_neg (by simp [hminus]), if_neg (by simp [hplus]), ← hcons]
    exact parse_unsigned_eval_int ds rest hds hstop
  | true =>
    have hl : (if (true : Bool) then ['-'] else ([] : List Char)) ++
        (ds ++ rest) = '-' :: (ds ++ rest) := by
      simp
    rw [show ((if (true : Bool) then ['-'] else ([] : List Char)) ++ ds ++ rest) =
      (if (true : Bool) then ['-'] else ([] : List Char)) ++ (ds ++ rest) from by
        rw [List.append_assoc], hl]
    unfold parse_float
    rw [dropWhile_space_cons '-' _ (by decide)]
    rw [if_pos (by simp), List.tail_cons]
    rw [parse_unsigned_eval_int ds rest hds hstop]
    simp

/-- Parsing back a `%d` rendering recovers the integer. -/
lemma parse_float_fmt_int (i : ℤ) (rest : List Char) (hstop : StopChar rest) :
    parse_float (fmt_int i ++ rest) = (i : ℚ) := by
  by_cases hi : i < 0
  · have h := parse_float_eval_int true (natDigits i.natAbs) rest
      (natDigits_digits _) (natDigits_ne_nil _) hstop
    simp only [if_true, digitsToNat_natDigits, neg_one_mul] at h
    have hfmt : fmt_int i = ['-'] ++ natDigits i.natAbs := by
      simp [fmt_int, hi]
    rw [hfmt, h]
    rw [show ((i.natAbs : ℕ) : ℚ) = (((i.natAbs : ℤ)) : ℚ) from (Int.cast_natCast _).symm,
      (by omega : (i.natAbs : ℤ) = -i)]
    push_cast
    ring
  · have h := parse_float_eval_int false (natDigits i.natAbs) rest
      (natDigits_digits _) (natDigits_ne_nil _) hstop
    simp only [Bool.false_eq_true, if_false, digitsToNat_natDigits, one_mul,
      List.nil_append] at h
    have hfmt : fmt_int i = natDigits i.natAbs := by
      simp [fmt_int, hi]
    rw [hfmt, h]
    rw [show ((i.natAbs : ℕ) : ℚ) = (((i.natAbs : ℤ)) : ℚ) from (Int.cast_natCast _).symm,
      (by omega : (i.natAbs : ℤ) = i)]

/-- Parsing back a `%.kf` rendering recovers the rounded value. -/
lemma parse_float_fmt_fixed (k : ℕ) (hk : 0 < k) (q : ℚ) (rest : List Char)
    (hstop : StopChar rest) :
    parse_float (fmt_fixed k q ++ rest) = roundFixed k q := by
  have hn : ∃ n : ℤ, n = roundHalf (q * (10 ^ k : ℕ)) := ⟨_, rfl⟩
  rcases hn with ⟨n, hn⟩
  have hfrac_lt : n.natAbs % 10 ^ k < 10 ^ k := Nat.mod_lt _ (by positivity)
  have hfs_len : (padZeros k (natDigits (n.natAbs % 10 ^ k))).length = k :=
    padZeros_length _ _ (natDigits_length_le _ _ hk hfrac_lt)
  have hfs_digits := padZeros_digits k (natDigits (n.natAbs % 10 ^ k))
    (natDigits_digits _)
  have hval : (digitsToNat (natDigits (n.natAbs / 10 ^ k)) : ℚ) +
      (digitsToNat (padZeros k (natDigits (n.natAbs % 10 ^ k))) : ℚ) /
        (10 ^ (padZeros k (natDigits (n.natAbs % 10 ^ k))).length : ℕ) =
      (n.natAbs : ℚ) / (10 ^ k : ℕ) := by
    rw [hfs_len, digitsToNat_padZeros, digitsToNat_natDigits, digitsToNat_natDigits]
    have hdm : ((10 ^ k * (n.natAbs / 10 ^ k) + n.natAbs % 10 ^ k : ℕ) : ℚ) =
        (n.natAbs : ℚ) := by
      exact_mod_cast congrArg (fun m : ℕ => (m : ℚ)) (Nat.div_add_mod n.natAbs (10 ^ k))
    push_cast at hdm
    have h10 : ((10 ^ k : ℕ) : ℚ) ≠ 0 := by positivity
    field_simp
    linarith
  have hround : roundFixed k q = (n : ℚ) / ((10 ^ k : ℕ) : ℚ) := by
    rw [roundFixed, ← hn]
  by_cases hneg : n < 0
  · have hshape : fmt_fixed k q ++ rest =
        (if (true : Bool) then ['-'] else []) ++ natDigits (n.natAbs / 10 ^ k) ++
          '.' :: (padZeros k (natDigits (n.natAbs % 10 ^ k)) ++ rest) := by
      unfold fmt_fixed
      rw [← hn, if_pos hneg]
      simp [List.append_assoc]
    rw [hshape, parse_float_eval_dot true _ _ _ (natDigits_digits _)
      (natDigits_ne_nil _) hfs_digits hstop, hval, hround]
    rw [show ((n.natAbs : ℕ) : ℚ) = (((n.natAbs : ℤ)) : ℚ) from (Int.cast_natCast _).symm,
      (by omega : (n.natAbs : ℤ) = -n)]
    norm_num
    ring
  · have hshape : fmt_fixed k q ++ rest =
        (if (false : Bool) then ['-'] else []) ++ natDigits (n.natAbs / 10 ^ k) ++
          '.' :: (padZeros k (natDigits (n.natAbs % 10 ^ k)) ++ rest) := by
      unfold fmt_fixed
      rw [← hn, if_neg hneg]
      simp [List.append_assoc]
    rw [hshape, parse_float_eval_dot false _ _ _ (natDigits_digits _)
      (natDigits_ne_nil _) hfs_digits hstop, hval, hround]
    rw [show ((n.natAbs : ℕ) : ℚ) = (((n.natAbs : ℤ)) : ℚ) from (Int.cast_natCast _).symm,
      (by omega : (n.natAbs : ℤ) = n)]
    norm_num

/-- `roundHalf` is the identity on integers. -/
lemma roundHalf_intCast (n : ℤ) : roundHalf (n : ℚ) = n := by
  unfold roundHalf
  have hfloor : ⌊(n : ℚ) + 1 / 2⌋ = n := by
    rw [Int.floor_eq_iff]
    constructor
    · linarith
    · norm_num
  by_cases hneg : (n : ℚ) < 0
  · rw [if_pos hneg]
    have hfloor' : ⌊-(n : ℚ) + 1 / 2⌋ = -n := by
      rw [Int.floor_eq_iff]
      constructor <;> push_cast <;> linarith
    rw [hfloor']
    ring
  · rw [if_neg hneg, hfloor]

/-- `truncQ` is the identity on integers. -/
lemma truncQ_intCast (n : ℤ) : truncQ (n : ℚ) = n := by
  unfold truncQ
  rw [Rat.num_intCast, Rat.den_intCast, Nat.cast_one, Int.tdiv_one]

/-- Re-rounding a rounded value changes nothing, so the rendering is
stable. -/
lemma fmt_fixed_roundFixed (k : ℕ) (q : ℚ) :
    fmt_fixed k (roundFixed k q) = fmt_fixed k q := by
  unfold fmt_fixed
  have harg : roundFixed k q * (10 ^ k : ℕ) = ((roundHalf (q * (10 ^ k : ℕ)) : ℤ) : ℚ) := by
    unfold roundFixed
    have h10 : ((10 ^ k : ℕ) : ℚ) ≠ 0 := by positivity
    field_simp
  rw [harg, roundHalf_intCast]

/-- Rounding to `k` decimals keeps a value of `[0, 1]` inside
`[0, 1]`. -/
lemma roundFixed_mem_unit (k : ℕ) (q : ℚ) (h0 : 0 ≤ q) (h1 : q ≤ 1) :
    0 ≤ roundFixed k q ∧ roundFixed k q ≤ 1 := by
  have h10 : (0 : ℚ) < ((10 ^ k : ℕ) : ℚ) := by positivity
  have harg0 : 0 ≤ q * (10 ^ k : ℕ) := by positivity
  have harg1 : q * (10 ^ k : ℕ) ≤ ((10 ^ k : ℕ) : ℚ) := by nlinarith
  have harg0' : 0 ≤ q * (10 : ℚ) ^ k := by push_cast at harg0; exact harg0
  have harg1' : q * (10 : ℚ) ^ k ≤ (10 : ℚ) ^ k := by push_cast at harg1; exact harg1
  have hround0 : 0 ≤ roundHalf (q * (10 ^ k : ℕ)) := by
    unfold roundHalf
    rw [if_neg (by linarith)]
    exact Int.le_floor.mpr (by push_cast; linarith [harg0'])
  have hround1 : roundHalf (q * (10 ^ k : ℕ)) ≤ ((10 ^ k : ℕ) : ℤ) := by
    unfold roundHalf
    rw [if_neg (by linarith)]
    have hlt : ⌊q * (10 ^ k : ℕ) + 1 / 2⌋ < ((10 ^ k : ℕ) : ℤ) + 1 := by
      apply Int.floor_lt.mpr
      push_cast
      linarith [harg1']
    omega
  constructor
  · exact div_nonneg (by exact_mod_cast hround0) (le_of_lt h10)
  · unfold roundFixed
    rw [div_le_one h10]
    exact_mod_cast hround1

/-! ## Claim C9: first-occurrence search lemmas -/

/-- One-step unfolding of `firstIdxAux`. -/
lemma firstIdxAux_unfold (pat s : List Char) (i : ℕ) :
    firstIdxAux pat s i =
      if pat.isPrefixOf s then some i
      else
        match s with
        | [] => none
        | _ :: t => firstIdxAux pat t (i + 1) := by
  rw [firstIdxAux.eq_def]

/-- The accumulator of `firstIdxAux` only shifts the result. -/
lemma firstIdxAux_shift (pat s : List Char) (i : ℕ) :
    firstIdxAux pat s i = (firstIdxAux pat s 0).map (· + i) := by
  induction s generalizing i with
  | nil =>
    rw [firstIdxAux_unfold, firstIdxAux_unfold]
    by_cases hp : pat.isPrefixOf ([] : List Char) <;> simp [hp]
  | cons c t ih =>
    by_cases hp : pat.isPrefixOf (c :: t)
    · rw [firstIdxAux_unfold, if_pos hp, firstIdxAux_unfold, if_pos hp]
      simp
    · have hl : firstIdxAux pat (c :: t) i = firstIdxAux pat t (i + 1) := by
        rw [firstIdxAux_unfold, if_neg hp]
      have hr : firstIdxAux pat (c :: t) 0 = firstIdxAux pat t (0 + 1) := by
        rw [firstIdxAux_unfold, if_neg hp]
      rw [hl, hr, ih (i + 1), ih (0 + 1)]
      cases firstIdxAux pat t 0 with
      | none => rfl
      | some j =>
        show some (j + (i + 1)) = some (j + (0 + 1) + i)
        congr 1
        omega

/-- A match at the head puts the first occurrence at index 0. -/
lemma firstIdx_of_prefix (pat s : List Char) (h : pat.isPrefixOf s) :
    firstIdx s pat = some 0 := by
  unfold firstIdx
  rw [firstIdxAux_unfold, if_pos h]

/-- Stepping over a non-matching head shifts the first occurrence. -/
lemma firstIdx_cons_neg (pat : List Char) (c : Char) (s : List Char)
    (h : ¬ pat.isPrefixOf (c :: s)) :
    firstIdx (c :: s) pat = (firstIdx s pat).map (· + 1) := by
  have h0 : firstIdx (c :: s) pat = firstIdxAux pat s 1 := by
    unfold firstIdx
    rw [firstIdxAux_unfold, if_neg h]
  rw [h0, firstIdxAux_shift pat s 1]
  rfl

/-- A quote-headed pattern skips over any quote-free prefix. -/
lemma firstIdx_append_skip (p a b : List Char) (ha : '"' ∉ a) :
    firstIdx (a ++ b) ('"' :: p) = (firstIdx b ('"' :: p)).map (· + a.length) := by
  induction a with
  | nil => simp
  | cons c t ih =>
    have hc : c ≠ '"' := fun hEq => ha (hEq ▸ List.mem_cons_self c t)
    have hp : ¬ ('"' :: p).isPrefixOf (c :: (t ++ b)) := by
      rw [List.isPrefixOf_cons₂]
      simp [Ne.symm hc]
    rw [List.cons_append, firstIdx_cons_neg _ _ _ hp,
      ih (fun hm => ha (List.mem_cons_of_mem c hm))]
    cases firstIdx b ('"' :: p) with
    | none => rfl
    | some j =>
      show some (j + t.length + 1) = some (j + (c :: t).length)
      rfl

/-- Dropping past an appended prefix. -/
lemma drop_append_shift (a b : List Char) (n : ℕ) :
    (a ++ b).drop (a.length + n) = b.drop n := by
  induction a with
  | nil => simp
  | cons c t ih =>
    have : (c :: t).length + n = (t.length + n) + 1 := by
      simp
      omega
    rw [this, List.cons_append, List.drop_succ_cons, ih]

/-- Two distinct quote-free keys never match each other's quoted-key
pattern. -/
lemma key_mismatch (k k' u w : List Char) (hk : '"' ∉ k) (hk' : '"' ∉ k')
    (hne : k ≠ k') :
    (k ++ '"' :: u).isPrefixOf (k' ++ '"' :: w) = false := by
  induction k generalizing k' with
  | nil =>
    cases k' with
    | nil => exact absurd rfl hne
    | cons c t =>
      have hc : c ≠ '"' := fun hEq => hk' (hEq ▸ List.mem_cons_self c t)
      simp only [List.nil_append, List.cons_append, List.isPrefixOf_cons₂]
      simp [Ne.symm hc]
  | cons c t ih =>
    cases k' with
    | nil =>
      have hc : c ≠ '"' := fun hEq => hk (hEq ▸ List.mem_cons_self c t)
      simp only [List.cons_append, List.nil_append, List.isPrefixOf_cons₂]
      simp [hc]
    | cons c' t' =>
      simp only [List.cons_append, List.isPrefixOf_cons₂]
      by_cases hcc : c = c'
      · subst hcc
        have ht : t ≠ t' := by
          intro hEq
          exact hne (by rw [hEq])
        rw [ih t' (fun hm => hk (List.mem_cons_of_mem _ hm))
          (fun hm => hk' (List.mem_cons_of_mem _ hm)) ht]
        simp
      · simp [hcc]

/-! ## Claim C9: serialized-state lookup -/

/-- Numeral values contain no quote. -/
lemma GoodVal_no_quote (v : List Char) (h : GoodVal v) : '"' ∉ v := by
  intro hm
  rcases h.2 _ hm with hd | h1 | h1
  · exact absurd hd (by decide)
  · exact absurd h1 (by decide)
  · exact absurd h1 (by decide)

/-- Drop through a cons with explicit index arithmetic. -/
lemma drop_cons_shift (c : Char) (l : List Char) (a b : ℕ) (h : a = b + 1) :
    (c :: l).drop a = l.drop b := by
  subst h
  exact List.drop_succ_cons

/-- Drop through an appended prefix with explicit index arithmetic. -/
lemma drop_append_shift' (a b : List Char) (x y : ℕ) (h : x = a.length + y) :
    (a ++ b).drop x = b.drop y := by
  subst h
  exact drop_append_shift a b y

/-- `fmt_int` output is a good value. -/
lemma fmt_int_goodVal (i : ℤ) : GoodVal (fmt_int i) := by
  constructor
  · unfold fmt_int
    split
    · simp
    · simpa using natDigits_ne_nil i.natAbs
  · intro c hc
    unfold fmt_int at hc
    rcases List.mem_append.mp hc with hc | hc
    · split at hc
      · rcases List.mem_singleton.mp hc with rfl
        right
        left
        rfl
      · simp at hc
    · exact Or.inl (natDigits_digits _ c hc)

/-- Looking up a key in a rendered JSON body followed by arbitrary
trailing text: if `find?` locates `(k, v)` among well-behaved entries,
the pattern `"k":` first occurs immediately in front of `v`, and what
follows `v` either starts with the separating comma or is exactly the
trailing text. -/
lemma jsonBody_get (entries : List (String × String)) (k v : String)
    (post : List Char) (hkgood : GoodKey k.data)
    (hgood : ∀ kv ∈ entries, GoodKey kv.1.data ∧ GoodVal kv.2.data)
    (hfind : entries.find? (fun kv => kv.1 = k) = some (k, v)) :
    ∃ off rest,
      firstIdx (renderJsonBody entries ++ post) ('"' :: (k.data ++ ['"', ':'])) = some off ∧
      (renderJsonBody entries ++ post).drop (off + ('"' :: (k.data ++ ['"', ':'])).length) =
        v.data ++ rest ∧
      (rest.head? = some ',' ∨ rest = post) := by
  induction entries with
  | nil => simp at hfind
  | cons kv es ih =>
    by_cases hkey : kv.1 = k
    · have hkv : kv = (k, v) := by
        rw [List.find?_cons_of_pos _ (by simpa using hkey)] at hfind
        exact Option.some.inj hfind
      subst hkv
      cases es with
      | nil =>
        have hshape : renderJsonBody [((k : String), (v : String))] ++ post
            = ('"' :: (k.data ++ ['"', ':'])) ++ (v.data ++ post) := by
          simp [renderJsonBody]
        refine ⟨0, post, ?_, ?_, Or.inr rfl⟩
        · rw [hshape]
          exact firstIdx_of_prefix _ _
            (List.isPrefixOf_iff_prefix.mpr (List.prefix_append _ _))
        · rw [hshape, drop_append_shift' _ _ _ 0 (by omega), List.drop_zero]
      | cons e es' =>
        have hshape : renderJsonBody (((k : String), (v : String)) :: e :: es') ++ post
            = ('"' :: (k.data ++ ['"', ':'])) ++
                (v.data ++ (',' :: (renderJsonBody (e :: es') ++ post))) := by
          simp [renderJsonBody]
        refine ⟨0, ',' :: (renderJsonBody (e :: es') ++ post), ?_, ?_, Or.inl rfl⟩
        · rw [hshape]
          exact firstIdx_of_prefix _ _
            (List.isPrefixOf_iff_prefix.mpr (List.prefix_append _ _))
        · rw [hshape, drop_append_shift' _ _ _ 0 (by omega), List.drop_zero]
    · have hfind' : es.find? (fun kv => kv.1 = k) = some (k, v) := by
        rw [List.find?_cons_of_neg _ (by simpa using hkey)] at hfind
        exact hfind
      cases es with
      | nil => simp at hfind'
      | cons e es' =>
        obtain ⟨off, rest, hidx, hdrop, hrest⟩ :=
          ih (fun x hx => hgood x (List.mem_cons_of_mem _ hx)) hfind'
        obtain ⟨⟨hk1ne, hk1q, hk1c⟩, hv1⟩ := hgood kv (List.mem_cons_self _ _)
        have hvq : '"' ∉ kv.2.data := GoodVal_no_quote _ hv1
        have hne : k.data ≠ kv.1.data := fun h => hkey (String.ext h.symm)
        have hL : renderJsonBody (kv :: e :: es') ++ post
            = '"' :: (kv.1.data ++ ('"' :: (':' :: ((kv.2.data ++ [',']) ++
                (renderJsonBody (e :: es') ++ post))))) := by
          simp [renderJsonBody]
        have hnp1 : ¬ ('"' :: (k.data ++ ['"', ':'])).isPrefixOf
            ('"' :: (kv.1.data ++ ('"' :: (':' :: ((kv.2.data ++ [',']) ++
              (renderJsonBody (e :: es') ++ post)))))) := by
          have hkm := key_mismatch k.data kv.1.data [':']
            (':' :: ((kv.2.data ++ [',']) ++ (renderJsonBody (e :: es') ++ post)))
            hkgood.2.1 hk1q hne
          intro hcon
          rw [List.isPrefixOf_cons₂] at hcon
          simp only [beq_self_eq_true, Bool.true_and] at hcon
          rw [hkm] at hcon
          exact Bool.false_ne_true hcon
        have hnp2 : ¬ ('"' :: (k.data ++ ['"', ':'])).isPrefixOf
            ('"' :: (':' :: ((kv.2.data ++ [',']) ++
              (renderJsonBody (e :: es') ++ post)))) := by
          intro hcon
          rw [List.isPrefixOf_cons₂] at hcon
          simp only [beq_self_eq_true, Bool.true_and] at hcon
          obtain ⟨c, t, hct⟩ := List.exists_cons_of_ne_nil hkgood.1
          have hmem : c ∈ k.data := hct.symm ▸ List.mem_cons_self c t
          have hc : c ≠ ':' := fun hEq => hkgood.2.2 (hEq ▸ hmem)
          rw [hct, List.cons_append, List.isPrefixOf_cons₂] at hcon
          simp [hc] at hcon
        have hnp3 : ¬ ('"' :: (k.data ++ ['"', ':'])).isPrefixOf
            (':' :: ((kv.2.data ++ [',']) ++ (renderJsonBody (e :: es') ++ post))) := by
          intro hcon
          have hq : ('"' == ':') = false := by decide
          rw [List.isPrefixOf_cons₂, hq, Bool.false_and] at hcon
          exact Bool.false_ne_true hcon
        have h1 : firstIdx (renderJsonBody (kv :: e :: es') ++ post)
              ('"' :: (k.data ++ ['"', ':']))
            = (firstIdx (kv.1.data ++ ('"' :: (':' :: ((kv.2.data ++ [',']) ++
                (renderJsonBody (e :: es') ++ post)))))
                ('"' :: (k.data ++ ['"', ':']))).map (· + 1) := by
          rw [hL]
          exact firstIdx_cons_neg _ _ _ hnp1
        have h2 : firstIdx (kv.1.data ++ ('"' :: (':' :: ((kv.2.data ++ [',']) ++
              (renderJsonBody (e :: es') ++ post)))))
              ('"' :: (k.data ++ ['"', ':']))
            = (firstIdx ('"' :: (':' :: ((kv.2.data ++ [',']) ++
                (renderJsonBody (e :: es') ++ post))))
                ('"' :: (k.data ++ ['"', ':']))).map (· + kv.1.data.length) :=
          firstIdx_append_skip _ _ _ hk1q
        have h3 : firstIdx ('"' :: (':' :: ((kv.2.data ++ [',']) ++
              (renderJsonBody (e :: es') ++ post))))
              ('"' :: (k.data ++ ['"', ':']))
            = (firstIdx (':' :: ((kv.2.data ++ [',']) ++
                (renderJsonBody (e :: es') ++ post)))
                ('"' :: (k.data ++ ['"', ':']))).map (· + 1) :=
          firstIdx_cons_neg _ _ _ hnp2
        have h4 : firstIdx (':' :: ((kv.2.data ++ [',']) ++
              (renderJsonBody (e :: es') ++ post)))
              ('"' :: (k.data ++ ['"', ':']))
            = (firstIdx ((kv.2.data ++ [',']) ++
                (renderJsonBody (e :: es') ++ post))
                ('"' :: (k.data ++ ['"', ':']))).map (· + 1) :=
          firstIdx_cons_neg _ _ _ hnp3
        have h5 : firstIdx ((kv.2.data ++ [',']) ++ (renderJsonBody (e :: es') ++ post))
              ('"' :: (k.data ++ ['"', ':']))
            = (firstIdx (renderJsonBody (e :: es') ++ post)
                ('"' :: (k.data ++ ['"', ':']))).map
                  (· + (kv.2.data ++ [',']).length) := by
          apply firstIdx_append_skip
          intro hm
          rcases List.mem_append.mp hm with hm | hm
          · exact hvq hm
          · exact absurd (List.mem_singleton.mp hm) (by decide)
        refine ⟨off + (kv.2.data ++ [',']).length + 1 + 1 + kv.1.data.length + 1,
          rest, ?_, ?_, hrest⟩
        · rw [h1, h2, h3, h4, h5, hidx]
          rfl
        · rw [hL]
          rw [drop_cons_shift _ _ _
            ((off + (kv.2.data ++ [',']).length + 1 + 1 + kv.1.data.length) +
              ('"' :: (k.data ++ ['"', ':'])).length) (by omega)]
          rw [drop_append_shift' _ _ _
            ((off + (kv.2.data ++ [',']).length + 1 + 1) +
              ('"' :: (k.data ++ ['"', ':'])).length) (by omega)]
          rw [drop_cons_shift _ _ _
            ((off + (kv.2.data ++ [',']).length + 1) +
              ('"' :: (k.data ++ ['"', ':'])).length) (by omega)]
          rw [drop_cons_shift _ _ _
            ((off + (kv.2.data ++ [',']).length) +
              ('"' :: (k.data ++ ['"', ':'])).length) (by omega)]
          rw [drop_append_shift' _ _ _
            (off + ('"' :: (k.data ++ ['"', ':'])).length) (by omega)]
          exact hdrop

/-- Looking up a key in a full serialized state: the match found by
`find?` over the entries determines the `json_get_number` result, and
the value is followed by a parse-stopping character. -/
lemma json_get_serialize (inst : Instance) (k v : String)
    (hkgood : GoodKey k.data)
    (hgood : ∀ kv ∈ stateEntries inst, GoodKey kv.1.data ∧ GoodVal kv.2.data)
    (hfind : (stateEntries inst).find? (fun kv => kv.1 = k) = some (k, v)) :
    ∃ rest, json_get_number (serializeState inst) k = some (parse_float (v.data ++ rest)) ∧
      StopChar rest := by
  obtain ⟨off, rest, hidx, hdrop, hrest⟩ :=
    jsonBody_get (stateEntries inst) k v [rbrace] hkgood hgood hfind
  have hstop : StopChar rest := by
    intro c hc
    rcases hrest with h | h
    · rw [hc] at h
      obtain rfl := Option.some.inj h
      decide
    · subst h
      obtain rfl := (Option.some.inj hc).symm
      decide
  have hqb : ('"' == lbrace) = false := by decide
  have hnp : ¬ ('"' :: (k.data ++ ['"', ':'])).isPrefixOf
      (lbrace :: (renderJsonBody (stateEntries inst) ++ [rbrace])) := by
    intro hcon
    rw [List.isPrefixOf_cons₂, hqb, Bool.false_and] at hcon
    exact Bool.false_ne_true hcon
  have hdata : (serializeState inst).data
      = lbrace :: (renderJsonBody (stateEntries inst) ++ [rbrace]) := rfl
  have hidx' : firstIdx (serializeState inst).data ('"' :: (k.data ++ ['"', ':']))
      = some (off + 1) := by
    rw [hdata, firstIdx_cons_neg _ _ _ hnp, hidx]
    rfl
  have hdropFull : (serializeState inst).data.drop
      ((off + 1) + ('"' :: (k.data ++ ['"', ':'])).length) = v.data ++ rest := by
    rw [hdata, drop_cons_shift _ _ _
      (off + ('"' :: (k.data ++ ['"', ':'])).length) (by omega)]
    exact hdrop
  have hvmem := List.mem_of_find?_eq_some hfind
  have hvgood : GoodVal v.data := (hgood _ hvmem).2
  obtain ⟨c, t, hct⟩ := List.exists_cons_of_ne_nil hvgood.1
  have hcd := hvgood.2 c (hct.symm ▸ List.mem_cons_self c t)
  have hcsp : c ≠ ' ' := by
    rcases hcd with h | h | h
    · exact (digit_not_special c h).1
    · subst h
      decide
    · subst h
      decide
  refine ⟨rest, ?_, hstop⟩
  simp only [json_get_number]
  rw [List.cons_append, hidx']
  show some (parse_float (((serializeState inst).data.drop
      ((off + 1) + ('"' :: (k.data ++ ['"', ':'])).length)).dropWhile (fun c => c = ' ')))
    = some (parse_float (v.data ++ rest))
  rw [hdropFull, hct, List.cons_append, dropWhile_space_cons _ _ hcsp]

/-- `fmt_fixed` output is a good value. -/
lemma fmt_fixed_goodVal (k : ℕ) (q : ℚ) : GoodVal (fmt_fixed k q) := by
  constructor
  · unfold fmt_fixed
    intro hcon
    rcases List.append_eq_nil.mp hcon with ⟨h1, -⟩
    rcases List.append_eq_nil.mp h1 with ⟨-, h2⟩
    simp at h2
  · intro c hc
    unfold fmt_fixed at hc
    rcases List.mem_append.mp hc with hc | hc
    · rcases List.mem_append.mp hc with hc | hc
      · rcases List.mem_append.mp hc with hc | hc
        · split at hc
          · rcases List.mem_singleton.mp hc with rfl
            right
            left
            rfl
          · simp at hc
        · exact Or.inl (natDigits_digits _ c hc)
      · rcases List.mem_singleton.mp hc with rfl
        right
        right
        rfl
    · exact Or.inl (padZeros_digits _ _ (natDigits_digits _) c hc)

/-- Serializer-key facts checked over the table: every shadow key is a
well-behaved JSON key distinct from the two meta keys, every bound pair
is `[0, 1]`, and every slot is in range. -/
lemma shadow_state_facts : ∀ d ∈ g_shadow_params,
    GoodKey d.key.data ∧ d.key ≠ "preset" ∧ d.key ≠ "octave_transpose" ∧
    d.min_val = 0 ∧ d.max_val = 1 ∧ d.index < PARAM_COUNT := by decide

/-- The slots of the shadow table are pairwise distinct. -/
lemma shadow_index_nodup : (g_shadow_params.map (fun d => d.index)).Nodup := by decide

/-- `find?` over a key-preserving map mirrors `find?` over the table. -/
lemma find?_map_key (l : List ParamDef) (g : ParamDef → String × String)
    (hg : ∀ x, (g x).1 = x.key) (key : String) :
    (l.map g).find? (fun kv => kv.1 = key) = (l.find? (fun x => x.key = key)).map g := by
  induction l with
  | nil => rfl
  | cons a t ih =>
    by_cases h : a.key = key
    · rw [List.map_cons, List.find?_cons_of_pos _ (by simp [hg, h]),
        List.find?_cons_of_pos _ (by simp [h])]
      rfl
    · rw [List.map_cons, List.find?_cons_of_neg _ (by simp [hg, h]),
        List.find?_cons_of_neg _ (by simp [h]), ih]

/-- The `preset` entry is the first serialized pair. -/
lemma stateEntries_find_preset (inst : Instance) :
    (stateEntries inst).find? (fun kv => kv.1 = "preset")
      = some ("preset", String.mk (fmt_int inst.current_preset)) := by
  have h1 : (decide (("preset" : String) = "preset")) = true := by decide
  unfold stateEntries
  refine List.find?_cons_of_pos _ ?_
  exact h1

/-- The `octave_transpose` entry is the second serialized pair. -/
lemma stateEntries_find_octave (inst : Instance) :
    (stateEntries inst).find? (fun kv => kv.1 = "octave_transpose")
      = some ("octave_transpose", String.mk (fmt_int inst.octave_transpose)) := by
  have h1 : ¬ ((decide (("preset" : String) = "octave_transpose")) = true) := by decide
  have h2 : (decide (("octave_transpose" : String) = "octave_transpose")) = true := by decide
  unfold stateEntries
  refine (List.find?_cons_of_neg _ ?_).trans (List.find?_cons_of_pos _ ?_)
  · exact h1
  · exact h2

/-- Each shadow key finds its own serialized pair. -/
lemma stateEntries_find_shadow (inst : Instance) (d : ParamDef)
    (hd : d ∈ g_shadow_params) :
    (stateEntries inst).find? (fun kv => kv.1 = d.key)
      = some (d.key, String.mk (fmt_fixed 4 (inst.params d.index))) := by
  obtain ⟨-, hnp, hno, -, -, -⟩ := shadow_state_facts d hd
  obtain ⟨-, -, -, -, -, -, -, -, -, -, -, -, -, hfind⟩ := shadow_key_props d hd
  unfold stateEntries
  refine (List.find?_cons_of_neg _ ?_).trans ((List.find?_cons_of_neg _ ?_).trans ?_)
  · simp [Ne.symm hnp]
  · simp [Ne.symm hno]
  · rw [find?_map_key g_shadow_params
      (fun x => (x.key, String.mk (fmt_fixed 4 (inst.params x.index))))
      (fun x => rfl) d.key, hfind]
    rfl

/-- Every serialized pair is well-behaved. -/
lemma stateEntries_good (inst : Instance) :
    ∀ kv ∈ stateEntries inst, GoodKey kv.1.data ∧ GoodVal kv.2.data := by
  intro kv hkv
  unfold stateEntries at hkv
  rcases List.mem_cons.mp hkv with rfl | hkv
  · exact ⟨(by decide : GoodKey "preset".data), fmt_int_goodVal _⟩
  rcases List.mem_cons.mp hkv with rfl | hkv
  · exact ⟨(by decide : GoodKey "octave_transpose".data), fmt_int_goodVal _⟩
  obtain ⟨d, hd, rfl⟩ := List.mem_map.mp hkv
  exact ⟨(shadow_state_facts d hd).1, fmt_fixed_goodVal _ _⟩

/-- Reading `preset` back from the serialized state. -/
lemma json_get_state_preset (inst : Instance) :
    json_get_number (serializeState inst) "preset" = some (inst.current_preset : ℚ) := by
  obtain ⟨rest, heq, hstop⟩ := json_get_serialize inst "preset"
    (String.mk (fmt_int inst.current_preset)) (by decide)
    (stateEntries_good inst) (stateEntries_find_preset inst)
  rw [heq]
  congr 1
  exact parse_float_fmt_int _ _ hstop

/-- Reading `octave_transpose` back from the serialized state. -/
lemma json_get_state_octave (inst : Instance) :
    json_get_number (serializeState inst) "octave_transpose"
      = some (inst.octave_transpose : ℚ) := by
  obtain ⟨rest, heq, hstop⟩ := json_get_serialize inst "octave_transpose"
    (String.mk (fmt_int inst.octave_transpose)) (by decide)
    (stateEntries_good inst) (stateEntries_find_octave inst)
  rw [heq]
  congr 1
  exact parse_float_fmt_int _ _ hstop

/-- Reading a shadow key back from the serialized state yields exactly
the `%.4f`-rounded stored value. -/
lemma json_get_state_shadow (inst : Instance) (d : ParamDef)
    (hd : d ∈ g_shadow_params) :
    json_get_number (serializeState inst) d.key
      = some (roundFixed 4 (inst.params d.index)) := by
  obtain ⟨rest, heq, hstop⟩ := json_get_serialize inst d.key
    (String.mk (fmt_fixed 4 (inst.params d.index))) (shadow_state_facts d hd).1
    (stateEntries_good inst) (stateEntries_find_shadow inst d hd)
  rw [heq]
  congr 1
  exact parse_float_fmt_fixed 4 (by norm_num) _ _ hstop

/-- The direct dispatch touches only the parameter vector. -/
lemma apply_param_direct_meta (inst : Instance) (pi : ℤ) (v : ℚ) :
    (v2_apply_param_direct inst pi v).1.current_preset = inst.current_preset ∧
    (v2_apply_param_direct inst pi v).1.octave_transpose = inst.octave_transpose := by
  unfold v2_apply_param_direct
  split
  · exact ⟨rfl, rfl⟩
  · exact ⟨rfl, rfl⟩

/-- The preset application touches neither the preset index nor the
octave transpose. -/
lemma apply_preset_meta (inst : Instance) (idx : ℤ) :
    (v2_apply_preset inst idx).1.current_preset = inst.current_preset ∧
    (v2_apply_preset inst idx).1.octave_transpose = inst.octave_transpose := by
  unfold v2_apply_preset
  split
  · exact ⟨rfl, rfl⟩
  · split
    · exact ⟨rfl, rfl⟩
    · exact ⟨rfl, rfl⟩

/-- The shadow-restore fold touches only the parameter vector. -/
lemma restore_fold_meta (val : String) (L : List ParamDef) :
    ∀ start : Instance × List EngineCall,
      (L.foldl (fun acc d =>
        match json_get_number val d.key with
        | some f =>
          let r := v2_apply_param_direct acc.1 d.index (clampQ d.min_val d.max_val f)
          (r.1, acc.2 ++ r.2)
        | none => acc) start).1.current_preset = start.1.current_preset ∧
      (L.foldl (fun acc d =>
        match json_get_number val d.key with
        | some f =>
          let r := v2_apply_param_direct acc.1 d.index (clampQ d.min_val d.max_val f)
          (r.1, acc.2 ++ r.2)
        | none => acc) start).1.octave_transpose = start.1.octave_transpose := by
  induction L with
  | nil => exact fun start => ⟨rfl, rfl⟩
  | cons e L ih =>
    intro start
    simp only [List.foldl_cons]
    cases hje : json_get_number val e.key with
    | none => exact ih start
    | some q =>
      have hs := ih ((v2_apply_param_direct start.1 e.index
        (clampQ e.min_val e.max_val q)).1,
        start.2 ++ (v2_apply_param_direct start.1 e.index
          (clampQ e.min_val e.max_val q)).2)
      have hm := apply_param_direct_meta start.1 e.index (clampQ e.min_val e.max_val q)
      exact ⟨hs.1.trans hm.1, hs.2.trans hm.2⟩

/-- The shadow-restore fold leaves any slot named by no table entry
untouched. -/
lemma restore_fold_untouched (val : String) (L : List ParamDef) (j : ℕ)
    (hj : ∀ d ∈ L, d.index ≠ j) :
    ∀ start : Instance × List EngineCall,
      (L.foldl (fun acc d =>
        match json_get_number val d.key with
        | some f =>
          let r := v2_apply_param_direct acc.1 d.index (clampQ d.min_val d.max_val f)
          (r.1, acc.2 ++ r.2)
        | none => acc) start).1.params j = start.1.params j := by
  induction L with
  | nil => exact fun start => rfl
  | cons e L ih =>
    intro start
    simp only [List.foldl_cons]
    cases hje : json_get_number val e.key with
    | none => exact ih (fun d hd => hj d (List.mem_cons_of_mem _ hd)) start
    | some q =>
      have he : e.index ≠ j := hj e (List.mem_cons_self _ _)
      have hp : (v2_apply_param_direct start.1 e.index
          (clampQ e.min_val e.max_val q)).1.params j = start.1.params j := by
        unfold v2_apply_param_direct
        split
        · rfl
        · show (if j = ((e.index : ℤ)).toNat then clampQ e.min_val e.max_val q
            else start.1.params j) = start.1.params j
          rw [if_neg]
          rw [Int.toNat_natCast]
          exact fun h => he h.symm
      exact (ih (fun d hd => hj d (List.mem_cons_of_mem _ hd)) _).trans hp

/-- The shadow-restore fold stores, at every listed slot, the clamped
value read for that slot's own key (later entries never overwrite it,
the slots being distinct). -/
lemma restore_fold_params (val : String) (vals : ParamDef → ℚ) (L : List ParamDef)
    (hjson : ∀ d ∈ L, json_get_number val d.key = some (vals d))
    (hlt : ∀ d ∈ L, d.index < PARAM_COUNT)
    (hnodup : (L.map (fun d => d.index)).Nodup) :
    ∀ start : Instance × List EngineCall, ∀ d ∈ L,
      (L.foldl (fun acc d =>
        match json_get_number val d.key with
        | some f =>
          let r := v2_apply_param_direct acc.1 d.index (clampQ d.min_val d.max_val f)
          (r.1, acc.2 ++ r.2)
        | none => acc) start).1.params d.index
        = clampQ d.min_val d.max_val (vals d) := by
  induction L with
  | nil =>
    intro start d hd
    simp at hd
  | cons e L ih =>
    intro start d hd
    simp only [List.foldl_cons]
    have hje := hjson e (List.mem_cons_self _ _)
    rw [hje]
    simp only [List.map_cons, List.nodup_cons] at hnodup
    rcases List.mem_cons.mp hd with heq | hd'
    · subst heq
      have hnot : ∀ x ∈ L, x.index ≠ d.index := by
        intro x hx hEq
        exact hnodup.1 (hEq ▸ List.mem_map_of_mem _ hx)
      rw [restore_fold_untouched val L d.index hnot]
      have hltd := hlt d (List.mem_cons_self _ _)
      show (v2_apply_param_direct start.1 d.index
        (clampQ d.min_val d.max_val (vals d))).1.params d.index
        = clampQ d.min_val d.max_val (vals d)
      unfold v2_apply_param_direct
      rw [if_neg]
      · show (if d.index = ((d.index : ℤ)).toNat then clampQ d.min_val d.max_val (vals d)
          else start.1.params d.index) = clampQ d.min_val d.max_val (vals d)
        rw [Int.toNat_natCast, if_pos rfl]
      · push_neg
        constructor
        · exact Int.natCast_nonneg _
        · exact_mod_cast hltd
    · exact ih (fun x hx => hjson x (List.mem_cons_of_mem _ hx))
        (fun x hx => hlt x (List.mem_cons_of_mem _ hx)) hnodup.2 _ d hd'

/-- Restoring an instance's own serialization: the preset index is
unchanged (both with and without a successful preset re-application),
the octave transpose is re-clamped into `[-3, 3]`, and every shadow
slot ends up holding the clamped `%.4f`-rounded reading of its own
serialized entry — regardless of what the intervening preset
application wrote. -/
lemma restore_serialize_fields (inst : Instance) :
    (restoreState inst (serializeState inst)).1.current_preset = inst.current_preset ∧
    (restoreState inst (serializeState inst)).1.octave_transpose
      = clampZ (-3) 3 inst.octave_transpose ∧
    ∀ d ∈ g_shadow_params,
      (restoreState inst (serializeState inst)).1.params d.index
        = clampQ d.min_val d.max_val (roundFixed 4 (inst.params d.index)) := by
  have hjp := json_get_state_preset inst
  have hjo := json_get_state_octave inst
  have hmeta := restore_fold_meta (serializeState inst) g_shadow_params
  have hparams := restore_fold_params (serializeState inst)
    (fun d => roundFixed 4 (inst.params d.index)) g_shadow_params
    (fun d hd => json_get_state_shadow inst d hd)
    (fun d hd => (shadow_state_facts d hd).2.2.2.2.2)
    shadow_index_nodup
  unfold restoreState
  simp only [hjp, hjo, truncQ_intCast]
  by_cases hg : 0 ≤ inst.current_preset ∧ inst.current_preset < (inst.preset_count : ℤ)
  · rw [if_pos hg]
    exact ⟨(hmeta _).1.trans (apply_preset_meta _ _).1, (hmeta _).2, hparams _⟩
  · rw [if_neg hg]
    exact ⟨(hmeta _).1, (hmeta _).2, hparams _⟩

/-- When the instance's octave transpose and shadow values already sit
inside their clamp ranges, re-serializing the restored instance
reproduces the original string byte for byte. -/
lemma serialize_restore_eq (inst : Instance)
    (hoct1 : -3 ≤ inst.octave_transpose) (hoct2 : inst.octave_transpose ≤ 3)
    (hb : ∀ d ∈ g_shadow_params,
      d.min_val ≤ inst.params d.index ∧ inst.params d.index ≤ d.max_val) :
    serializeState (restoreState inst (serializeState inst)).1
      = serializeState inst := by
  obtain ⟨hcp, hoc, hpar⟩ := restore_serialize_fields inst
  have hent : stateEntries (restoreState inst (serializeState inst)).1
      = stateEntries inst := by
    unfold stateEntries
    rw [hcp, hoc, clampZ_of_mem _ _ _ hoct1 hoct2]
    congr 1
    congr 1
    apply List.map_congr_left
    intro d hd
    obtain ⟨-, -, -, hmin, hmax, -⟩ := shadow_state_facts d hd
    obtain ⟨hb1, hb2⟩ := hb d hd
    rw [hmin] at hb1
    rw [hmax] at hb2
    have hru := roundFixed_mem_unit 4 (inst.params d.index) hb1 hb2
    rw [hpar d hd, hmin, hmax, clampQ_of_mem _ _ _ hru.1 hru.2, fmt_fixed_roundFixed]
  have h1 : serializeState (restoreState inst (serializeState inst)).1
      = String.mk (lbrace :: renderJsonBody
          (stateEntries (restoreState inst (serializeState inst)).1) ++ [rbrace]) := rfl
  rw [h1, hent]
  rfl

/-- `v2_get_param("state")` always answers with the serialized
snapshot (the key matches no earlier branch). -/
lemma get_state (inst : Instance) :
    v2_get_param inst "state" = some (serializeState inst) := by
  have hfind : g_shadow_params.find? (fun d => d.key = "state") = none := by decide
  have h1 : ("param_name_".data.isPrefixOf "state".data) = false := by decide
  have h2 : ("param_".data.isPrefixOf "state".data) = false := by decide
  simp [v2_get_param, param_helper_get, hfind, h1, h2]

/-- C9: for an instance whose octave transpose lies in `[-3, 3]` and
whose shadow values already sit inside their clamp ranges,
`get_param("state")` followed by `set_param("state", <that result>)`
followed by `get_param("state")` returns the same string as the first
serialization, and every shadow slot of the restored instance holds
the clamped reading of its own serialized entry — the per-parameter
entries win over whatever the earlier preset restore wrote. -/
theorem C9_state_roundtrip (inst : Instance)
    (hoct : -3 ≤ inst.octave_transpose ∧ inst.octave_transpose ≤ 3)
    (hb : ∀ d ∈ g_shadow_params,
      d.min_val ≤ inst.params d.index ∧ inst.params d.index ≤ d.max_val) :
    v2_get_param inst "state" = some (serializeState inst) ∧
    v2_get_param (v2_set_param inst "state" (serializeState inst)).1 "state"
      = some (serializeState inst) ∧
    ∀ d ∈ g_shadow_params,
      (v2_set_param inst "state" (serializeState inst)).1.params d.index
        = clampQ d.min_val d.max_val (roundFixed 4 (inst.params d.index)) := by
  have hset : v2_set_param inst "state" (serializeState inst)
      = restoreState inst (serializeState inst) := by
    unfold v2_set_param
    rw [if_pos rfl]
  refine ⟨get_state inst, ?_, ?_⟩
  · rw [hset, get_state, serialize_restore_eq inst hoct.1 hoct.2 hb]
  · intro d hd
    rw [hset]
    exact (restore_serialize_fields inst).2.2 d hd

/-- Witness: the round trip at a concrete in-range instance. -/
theorem C9_witness :
    (-3 ≤ c9winst.octave_transpose ∧ c9winst.octave_transpose ≤ 3) ∧
    (∀ d ∈ g_shadow_params,
      d.min_val ≤ c9winst.params d.index ∧ c9winst.params d.index ≤ d.max_val) ∧
    v2_get_param (v2_set_param c9winst "state" (serializeState c9winst)).1 "state"
      = some (serializeState c9winst) :=
  ⟨⟨by decide, by decide⟩, by decide,
    (C9_state_roundtrip c9winst ⟨by decide, by decide⟩ (by decide)).2.1⟩

/-- Counterexample to the unconditional claim: starting from an
instance whose stored `cutoff` is `3/2`, the first serialization reads
back `3/2` for `cutoff` while the serialization after the restore
reads back the clamped `1`, so the two `get_param("state")` results
differ. -/
theorem C9_counterexample :
    v2_get_param c9inst "state" = some (serializeState c9inst) ∧
    v2_get_param (v2_set_param c9inst "state" (serializeState c9inst)).1 "state"
      = some (serializeState (v2_set_param c9inst "state" (serializeState c9inst)).1) ∧
    serializeState (v2_set_param c9inst "state" (serializeState c9inst)).1
      ≠ serializeState c9inst := by
  have hset : v2_set_param c9inst "state" (serializeState c9inst)
      = restoreState c9inst (serializeState c9inst) := by
    unfold v2_set_param
    rw [if_pos rfl]
  refine ⟨get_state c9inst, get_state _, ?_⟩
  intro hEq
  rw [hset] at hEq
  have hc9v : c9inst.params
      (ParamDef.index ⟨"cutoff", "Cutoff", .FLOAT, CUTOFF, 0, 1⟩) = 3/2 := by
    show (if (CUTOFF : ℕ) = CUTOFF then (3/2 : ℚ) else 0) = 3/2
    rw [if_pos rfl]
  have h32 : roundFixed 4 ((3 : ℚ)/2) = 3/2 := by
    unfold roundFixed
    have harg : ((3 : ℚ)/2) * ((10 ^ 4 : ℕ) : ℚ) = ((15000 : ℤ) : ℚ) := by norm_num
    rw [harg, roundHalf_intCast]
    norm_num
  have h1q : roundFixed 4 (1 : ℚ) = 1 := by
    unfold roundFixed
    have harg : (1 : ℚ) * ((10 ^ 4 : ℕ) : ℚ) = ((10000 : ℤ) : ℚ) := by norm_num
    rw [harg, roundHalf_intCast]
    norm_num
  have hclamp : clampQ 0 1 ((3 : ℚ)/2) = 1 := by
    unfold clampQ
    norm_num
  have hA := json_get_state_shadow c9inst
    ⟨"cutoff", "Cutoff", .FLOAT, CUTOFF, 0, 1⟩ (by decide)
  have hB := json_get_state_shadow (restoreState c9inst (serializeState c9inst)).1
    ⟨"cutoff", "Cutoff", .FLOAT, CUTOFF, 0, 1⟩ (by decide)
  have hRv := (restore_serialize_fields c9inst).2.2
    ⟨"cutoff", "Cutoff", .FLOAT, CUTOFF, 0, 1⟩ (by decide)
  rw [hc9v, h32] at hA
  rw [hc9v, h32] at hRv
  have hRv' : (restoreState c9inst (serializeState c9inst)).1.params
      (ParamDef.index ⟨"cutoff", "Cutoff", .FLOAT, CUTOFF, 0, 1⟩) = 1 :=
    hRv.trans hclamp
  rw [hEq, hRv', h1q] at hB
  have hcontra : ((3 : ℚ)/2) = 1 := Option.some.inj (hA.symm.trans hB)
  norm_num at hcontra

end Obxd
